import Mathlib

/-!
# Video conversion and streaming pipeline: registry and job lifecycle

A shallow embedding of `src/v1/main.go`.

* Go strings are byte sequences (`GoString`); they need not be valid UTF-8.
* The registry `fm.fmap : map[string]*FileInfo` is an association list with
  unique keys whose values are `Option FileInfo`; `none` is the nil pointer.
  Every pointer stored in the map is freshly allocated (by `WriteFileInfo` or
  by `json.Unmarshal`), so no two keys share a record and a write through
  `fm.fmap[fileId]` is the replacement of that key's value.
* `fm.fmap` is created with `make` in `main`, so it is a map proper. Each
  method of `FileInfoMap` that locks the mutex is one step, a function from the
  registry before to the registry after. `ReadFileInfo` takes no lock: the
  lookup of `uploadFile` and the `WriteFileInfo` that follows a miss are two
  steps, between which steps of other handlers may come (`Op`, `applyOp`).
* A Go panic (nil pointer dereference) is a `Fault` returned next to the
  registry the panicking operation leaves behind.
* `json.Marshal` and `json.Unmarshal` of the standard library are embedded at
  the level of bytes, for the type `map[string]*FileInfo`: the encoder in full,
  the decoder on texts of the snapshot format (see `Unmarshal`).
* The encoder subprocess is a function `run` from the command line to whether
  `cmdObj.Run()` succeeded.
-/

namespace VideoPipeline

/-! ## Strings -/

/-- One byte of a Go string. -/
abbrev Byte := Fin 256

/-- A Go `string`: an immutable sequence of bytes. -/
abbrev GoString := List Byte

/-- Go's conversion `byte(n)`. -/
def byte (n : Nat) : Byte := ⟨n % 256, Nat.mod_lt _ (by decide)⟩

/-- The Go string of an ASCII literal of the source text. -/
def ascii (s : String) : GoString := s.data.map (fun c => byte c.toNat)

/-! ## Data model (main.go, lines 27-36) -/

/-- The struct `FileInfo`. -/
structure FileInfo where
  FileName : GoString
  IsProcessed : Bool
  IsProcessingRN : Bool
  deriving DecidableEq, Repr

/-- The field `fmap` of `FileInfoMap`, a `map[string]*FileInfo`: the entries in
a list, a nil pointer as `none`. -/
abbrev FileInfoMap := List (GoString × Option FileInfo)

/-- Go's `v, ok := m[key]`: `none` when the key is absent (`ok = false`). -/
def mapLookup : FileInfoMap → GoString → Option (Option FileInfo)
  | [], _ => none
  | (k, v) :: rest, key => if k = key then some v else mapLookup rest key

/-- Go's `m[key]`: the zero value (the nil pointer) when the key is absent. -/
def mapIndex (m : FileInfoMap) (key : GoString) : Option FileInfo :=
  match mapLookup m key with
  | some v => v
  | none => none

/-- Go's `m[key] = v`: replaces the value of an existing key, adds the key
otherwise. -/
def mapAssign : FileInfoMap → GoString → Option FileInfo → FileInfoMap
  | [], key, v => [(key, v)]
  | (k, x) :: rest, key, v =>
    if k = key then (k, v) :: rest else (k, x) :: mapAssign rest key v

/-- The number of entries the registry holds for a key. -/
def entryCount (m : FileInfoMap) (key : GoString) : Nat :=
  (m.filter (fun e => decide (e.1 = key))).length

/-- A run-time panic of the Go program. -/
inductive Fault where
  | nilPointerDereference
  deriving DecidableEq, Repr

/-! ## Registry operations (main.go, lines 38-75) -/

/-- `FileInfoMap.WriteFileInfo`. -/
def WriteFileInfo (fm : FileInfoMap) (fileId fileName : GoString) : FileInfoMap :=
  mapAssign fm fileId (some { FileName := fileName, IsProcessed := false, IsProcessingRN := false })

/-- `FileInfoMap.ReadFileInfo`: the pair `(v, ok)`. -/
def ReadFileInfo (fm : FileInfoMap) (fileId : GoString) : Option FileInfo × Bool :=
  match mapLookup fm fileId with
  | some v => (v, true)
  | none => (none, false)

/-- `FileInfoMap.ChangeVideoProcessedStatus`: `fi := fm.fmap[fileId]`, then
`fi.IsProcessed = true`, which panics when `fi` is nil. -/
def ChangeVideoProcessedStatus (fm : FileInfoMap) (fileId : GoString) :
    FileInfoMap × Option Fault :=
  match mapIndex fm fileId with
  | none => (fm, some Fault.nilPointerDereference)
  | some fi => (mapAssign fm fileId (some { fi with IsProcessed := true }), none)

/-- `FileInfoMap.ChangeVideoIsProcessedStatusTrue`: `fi := fm.fmap[fileId]`,
then `fi.IsProcessingRN = true`, which panics when `fi` is nil. -/
def ChangeVideoIsProcessedStatusTrue (fm : FileInfoMap) (fileId : GoString) :
    FileInfoMap × Option Fault :=
  match mapIndex fm fileId with
  | none => (fm, some Fault.nilPointerDereference)
  | some fi => (mapAssign fm fileId (some { fi with IsProcessingRN := true }), none)

/-- `FileInfoMap.ChangeVideoIsProcessedStatusFalse`: `fi := fm.fmap[fileId]`,
then `fi.IsProcessingRN = false`, which panics when `fi` is nil. -/
def ChangeVideoIsProcessedStatusFalse (fm : FileInfoMap) (fileId : GoString) :
    FileInfoMap × Option Fault :=
  match mapIndex fm fileId with
  | none => (fm, some Fault.nilPointerDereference)
  | some fi => (mapAssign fm fileId (some { fi with IsProcessingRN := false }), none)

/-! ## The upload handler's ensure step (main.go, lines 156-158) -/

/-- The step `if _, ok := fm.ReadFileInfo(fileId); !ok { fm.WriteFileInfo(fileId, fileName) }`
of `uploadFile`. -/
def ensure (fm : FileInfoMap) (fileId fileName : GoString) : FileInfoMap :=
  if (ReadFileInfo fm fileId).2 then fm else WriteFileInfo fm fileId fileName

/-! ## Paths and the encoder command (main.go, lines 115-124, 206, 228-241) -/

/-- The table `resMap` that `main` builds: one active entry. -/
def resMap : List (GoString × GoString) := [(ascii "144p", ascii "256:144")]

/-- The byte `'/'`. -/
def slash : Byte := byte 47

/-- Go's `strings.Split(s, sep)` for a separator of one byte: the pieces of `s`
between the occurrences of `sep`; a string without `sep` (also the empty one)
gives the one piece `s`. -/
def stringsSplit (sep : Byte) : GoString → List GoString
  | [] => [[]]
  | b :: rest =>
    if b = sep then [] :: stringsSplit sep rest
    else
      match stringsSplit sep rest with
      | [] => [[b]]
      | w :: ws => (b :: w) :: ws

/-- The path `fmt.Sprintf("./upload/%s_%s", fileId, fileName)` of `uploadFile`
and `processVideo`. -/
def uploadPath (fileId fileName : GoString) : GoString :=
  ascii "./upload/" ++ fileId ++ ascii "_" ++ fileName

/-- The destination that `convertVideo` puts into the encoder command:
`./static/videostore/%s_%s` of `outputFilePrefix` and the last piece of
`strings.Split(filePath, "/")`. -/
def convertVideoOutputPath (filePath outputFilePrefix : GoString) : GoString :=
  let splittedFilePath := stringsSplit slash filePath
  let fileName := splittedFilePath.getLastD []
  ascii "./static/videostore/" ++ outputFilePrefix ++ ascii "_" ++ fileName

/-- The command line `cmd` that `convertVideo` hands to `bash -c`. -/
def convertVideoCmd (filePath outputFilePrefix fileResolution : GoString) : GoString :=
  ascii "ffmpeg -i '" ++ filePath ++ ascii "' -vf 'scale=" ++ fileResolution ++
    ascii "' -acodec copy -c:a copy '" ++ convertVideoOutputPath filePath outputFilePrefix ++
    ascii "'"

/-- `convertVideo`: runs the command; `run cmd = false` stands for an error of
`cmdObj.Run()`, which is logged and nothing else. The result is the list of
commands logged as failed. -/
def convertVideo (run : GoString → Bool) (filePath outputFilePrefix fileResolution : GoString) :
    List GoString :=
  let cmd := convertVideoCmd filePath outputFilePrefix fileResolution
  if run cmd then [] else [cmd]

/-! ## The /process-video handler (main.go, lines 191-226) -/

/-- What a handler wrote to its `http.ResponseWriter`. -/
structure Response where
  status : Nat
  body : GoString
  deriving DecidableEq, Repr

/-- The outcome of the synchronous part of a handler: the registry afterwards,
the panic that ended it (net/http recovers it and the handler writes nothing),
the response it wrote, and whether it reached its `go` statement. -/
structure HandlerResult where
  fm : FileInfoMap
  fault : Option Fault
  response : Option Response
  spawned : Bool
  deriving DecidableEq, Repr

/-- The synchronous part of `processVideo`: `ChangeVideoIsProcessedStatusTrue`,
the `go` statement, then status 200 and `"Started processing"`. -/
def processVideo (fm : FileInfoMap) (fileId : GoString) : HandlerResult :=
  match ChangeVideoIsProcessedStatusTrue fm fileId with
  | (fm1, some f) => { fm := fm1, fault := some f, response := none, spawned := false }
  | (fm1, none) =>
    { fm := fm1, fault := none,
      response := some { status := 200, body := ascii "Started processing" },
      spawned := true }

/-- How the goroutine started by `processVideo` ended. -/
inductive JobOutcome where
  | notPresent
  | finished
  | panicked (f : Fault)
  deriving DecidableEq, Repr

/-- The outcome of the goroutine of `processVideo`: the registry afterwards,
how it ended, the registry after each of its registry writes, in order, and the
encoder commands logged as failed. -/
structure JobResult where
  fm : FileInfoMap
  outcome : JobOutcome
  observed : List FileInfoMap
  failed : List GoString
  deriving DecidableEq, Repr

/-- The body of the goroutine of `processVideo` (lines 197-221): the lookup,
one `convertVideo` per entry of `resMap`, `wg.Wait()`, then
`ChangeVideoIsProcessedStatusFalse` and `ChangeVideoProcessedStatus`. -/
def processVideoJob (run : GoString → Bool) (fm : FileInfoMap) (fileId : GoString) : JobResult :=
  match ReadFileInfo fm fileId with
  | (_, false) => { fm := fm, outcome := JobOutcome.notPresent, observed := [], failed := [] }
  | (none, true) =>
    { fm := fm, outcome := JobOutcome.panicked Fault.nilPointerDereference,
      observed := [], failed := [] }
  | (some v, true) =>
    let fileName := v.FileName
    let filePath := uploadPath fileId fileName
    let failed := (resMap.map (fun kv => convertVideo run filePath kv.1 kv.2)).flatten
    match ChangeVideoIsProcessedStatusFalse fm fileId with
    | (fm1, some f) =>
      { fm := fm1, outcome := JobOutcome.panicked f, observed := [], failed := failed }
    | (fm1, none) =>
      match ChangeVideoProcessedStatus fm1 fileId with
      | (fm2, some f) =>
        { fm := fm2, outcome := JobOutcome.panicked f, observed := [fm1], failed := failed }
      | (fm2, none) =>
        { fm := fm2, outcome := JobOutcome.finished, observed := [fm1, fm2], failed := failed }

/-- The pair `(isProcessing, isProcessed)` a poll reads for `fileId`. -/
def statusPair (fm : FileInfoMap) (fileId : GoString) : Option (Bool × Bool) :=
  (mapIndex fm fileId).map (fun fi => (fi.IsProcessingRN, fi.IsProcessed))

/-- The pairs `(isProcessing, isProcessed)` of `fileId` after each registry
write of one /process-video request: the handler's write, then the writes of
its goroutine. -/
def jobStatusTrace (run : GoString → Bool) (fm : FileInfoMap) (fileId : GoString) :
    List (Option (Bool × Bool)) :=
  let h := processVideo fm fileId
  if h.spawned then
    (h.fm :: (processVideoJob run h.fm fileId).observed).map (fun m => statusPair m fileId)
  else []

/-! ## Steps of concurrent handlers on the registry -/

/-- The steps that concurrent HTTP handlers take on the registry. A method
that locks the mutex is one step. `ReadFileInfo` takes no lock, so the lookup of
`uploadFile` (main.go, line 156) and the `WriteFileInfo` that follows a miss
(line 157) are two steps of the upload handler, and steps of other handlers may
come in between. -/
inductive Op where
  | uploadLookup (fileId fileName : GoString)
  | uploadWrite (fileId fileName : GoString)
  | markProcessingStart (fileId : GoString)
  | markProcessingEnd (fileId : GoString)
  | markProcessed (fileId : GoString)
  deriving DecidableEq, Repr

/-- The registry together with the upload handlers whose lookup missed and
whose `WriteFileInfo` is still to come, each by its `fileId` and `fileName`. -/
structure Handlers where
  fm : FileInfoMap
  pendingWrites : List (GoString × GoString)
  deriving DecidableEq, Repr

/-- One step. The lookup of an upload handler leaves the registry as it is and,
on a miss, commits the handler to its write; the write is `WriteFileInfo` on the
registry as it is by then, and is a step only of a handler whose lookup missed
(`none` otherwise). A panicking method leaves the registry as it was. -/
def applyOp (s : Handlers) : Op → Option Handlers
  | Op.uploadLookup fileId fileName =>
    if (ReadFileInfo s.fm fileId).2 then some s
    else some { s with pendingWrites := (fileId, fileName) :: s.pendingWrites }
  | Op.uploadWrite fileId fileName =>
    if (fileId, fileName) ∈ s.pendingWrites then
      some { fm := WriteFileInfo s.fm fileId fileName,
             pendingWrites := s.pendingWrites.erase (fileId, fileName) }
    else none
  | Op.markProcessingStart fileId =>
    some { s with fm := (ChangeVideoIsProcessedStatusTrue s.fm fileId).1 }
  | Op.markProcessingEnd fileId =>
    some { s with fm := (ChangeVideoIsProcessedStatusFalse s.fm fileId).1 }
  | Op.markProcessed fileId =>
    some { s with fm := (ChangeVideoProcessedStatus s.fm fileId).1 }

/-- The state after a sequence of steps, when each is a step of some handler. -/
def runOps : Handlers → List Op → Option Handlers
  | s, [] => some s
  | s, op :: ops =>
    match applyOp s op with
    | some s1 => runOps s1 ops
    | none => none

/-- The steps of one upload handler that runs without another handler's step
in between: the lookup, and the write when the lookup misses. -/
def uploadSteps (fm : FileInfoMap) (fileId fileName : GoString) : List Op :=
  if (ReadFileInfo fm fileId).2 then [Op.uploadLookup fileId fileName]
  else [Op.uploadLookup fileId fileName, Op.uploadWrite fileId fileName]

/-! ## Requests and job completions -/

/-- The registry together with the goroutines of `processVideo` that were
started and have not finished, each by its `fileId`. -/
structure System where
  fm : FileInfoMap
  jobs : List GoString
  deriving DecidableEq, Repr

/-- A /process-video request, or the completion of a job in flight. -/
inductive Event where
  | request (fileId : GoString)
  | complete (fileId : GoString)
  deriving DecidableEq, Repr

/-- One step: a request runs the handler and, when it reaches its `go`
statement, adds a job; a completion runs the body of a job in flight and
removes it (`none` when no job is in flight for that `fileId`). -/
def step (run : GoString → Bool) (s : System) : Event → Option System
  | Event.request fileId =>
    let h := processVideo s.fm fileId
    some { fm := h.fm, jobs := if h.spawned then fileId :: s.jobs else s.jobs }
  | Event.complete fileId =>
    if fileId ∈ s.jobs then
      some { fm := (processVideoJob run s.fm fileId).fm, jobs := s.jobs.erase fileId }
    else none

/-- The state after a sequence of steps, when each is enabled. -/
def runEvents (run : GoString → Bool) : System → List Event → Option System
  | s, [] => some s
  | s, e :: es =>
    match step run s e with
    | some s1 => runEvents run s1 es
    | none => none

/-- The number of jobs in flight for `fileId`. -/
def jobsInFlight (s : System) (fileId : GoString) : Nat :=
  s.jobs.count fileId

/-! ## encoding/json and unicode/utf8, as used on `map[string]*FileInfo` -/

/-- The rune `utf8.RuneError`, U+FFFD. -/
def runeError : Nat := 0xFFFD

/-- Go's `utf8.DecodeRune`: the rune at the head of the bytes and its width;
`(RuneError, 1)` for a byte that starts no valid encoding, `(RuneError, 0)` for
no bytes. -/
def decodeRune : GoString → Nat × Nat
  | [] => (runeError, 0)
  | b0 :: rest =>
    if b0.val < 0x80 then (b0.val, 1)
    else if b0.val < 0xC2 then (runeError, 1)
    else if b0.val < 0xE0 then
      match rest with
      | b1 :: _ =>
        if 0x80 ≤ b1.val ∧ b1.val ≤ 0xBF then ((b0.val % 32) * 64 + b1.val % 64, 2)
        else (runeError, 1)
      | [] => (runeError, 1)
    else if b0.val < 0xF0 then
      let lo := if b0.val = 0xE0 then 0xA0 else 0x80
      let hi := if b0.val = 0xED then 0x9F else 0xBF
      match rest with
      | b1 :: b2 :: _ =>
        if lo ≤ b1.val ∧ b1.val ≤ hi ∧ 0x80 ≤ b2.val ∧ b2.val ≤ 0xBF then
          ((b0.val % 16) * 4096 + (b1.val % 64) * 64 + b2.val % 64, 3)
        else (runeError, 1)
      | _ => (runeError, 1)
    else if b0.val < 0xF5 then
      let lo := if b0.val = 0xF0 then 0x90 else 0x80
      let hi := if b0.val = 0xF4 then 0x8F else 0xBF
      match rest with
      | b1 :: b2 :: b3 :: _ =>
        if lo ≤ b1.val ∧ b1.val ≤ hi ∧ 0x80 ≤ b2.val ∧ b2.val ≤ 0xBF ∧
            0x80 ≤ b3.val ∧ b3.val ≤ 0xBF then
          ((b0.val % 8) * 262144 + (b1.val % 64) * 4096 + (b2.val % 64) * 64 + b3.val % 64, 4)
        else (runeError, 1)
      | _ => (runeError, 1)
    else (runeError, 1)

/-- Go's `utf8.EncodeRune`: the UTF-8 bytes of a rune; a surrogate or a value
above U+10FFFF is written as U+FFFD. -/
def encodeRune (r : Nat) : GoString :=
  if r ≤ 0x7F then [byte r]
  else if r ≤ 0x7FF then [byte (0xC0 + r / 64), byte (0x80 + r % 64)]
  else if 0x10FFFF < r ∨ (0xD800 ≤ r ∧ r ≤ 0xDFFF) then [byte 0xEF, byte 0xBF, byte 0xBD]
  else if r ≤ 0xFFFF then
    [byte (0xE0 + r / 4096), byte (0x80 + r / 64 % 64), byte (0x80 + r % 64)]
  else
    [byte (0xF0 + r / 262144), byte (0x80 + r / 4096 % 64), byte (0x80 + r / 64 % 64),
      byte (0x80 + r % 64)]

/-- Go's `utf8.ValidString`, with the string's length as fuel: no byte of the
string starts an invalid encoding. -/
def validUTF8 : Nat → GoString → Bool
  | _, [] => true
  | 0, _ :: _ => false
  | fuel + 1, b :: rest =>
    let d := decodeRune (b :: rest)
    if d.1 = runeError ∧ d.2 = 1 then false else validUTF8 fuel ((b :: rest).drop d.2)

/-- Go's `utf8.ValidString`. -/
def ValidString (s : GoString) : Bool := validUTF8 s.length s

/-- The byte `"`. -/
def quote : Byte := byte 34

/-- The byte `\`. -/
def backslash : Byte := byte 92

/-- The digit `"0123456789abcdef"[n]` of package json. -/
def hexDigit (n : Nat) : Byte := byte (if n < 10 then 48 + n else 87 + n)

/-- The table `htmlSafeSet` of package json: the ASCII bytes written as they
are, all from 0x20 on except `"`, `&`, `<`, `>` and `\`. -/
def htmlSafe (b : Byte) : Bool :=
  decide (0x20 ≤ b.val) && !(b.val = 0x22 || b.val = 0x26 || b.val = 0x3C || b.val = 0x3E ||
    b.val = 0x5C)

/-- The escape that `appendString` writes for an ASCII byte outside
`htmlSafeSet` (as of Go 1.22; earlier releases write `\u0008` and `\u000c` for
backspace and form feed, which the decoder reads as the same bytes). -/
def escapeByte (b : Byte) : GoString :=
  if b.val = 0x5C ∨ b.val = 0x22 then [backslash, b]
  else if b.val = 0x08 then ascii "\\b"
  else if b.val = 0x0C then ascii "\\f"
  else if b.val = 0x0A then ascii "\\n"
  else if b.val = 0x0D then ascii "\\r"
  else if b.val = 0x09 then ascii "\\t"
  else ascii "\\u00" ++ [hexDigit (b.val / 16), hexDigit (b.val % 16)]

/-- The loop of `appendString` of package json (with `escapeHTML`), the
string's length as fuel: the text between the quotes. -/
def appendStringBody : Nat → GoString → GoString
  | _, [] => []
  | 0, _ :: _ => []
  | fuel + 1, b :: rest =>
    if b.val < 0x80 then
      if htmlSafe b then b :: appendStringBody fuel rest
      else escapeByte b ++ appendStringBody fuel rest
    else
      let d := decodeRune (b :: rest)
      if d.1 = runeError ∧ d.2 = 1 then ascii "\\ufffd" ++ appendStringBody fuel rest
      else if d.1 = 0x2028 ∨ d.1 = 0x2029 then
        ascii "\\u202" ++ [hexDigit (d.1 % 16)] ++ appendStringBody fuel ((b :: rest).drop d.2)
      else (b :: rest).take d.2 ++ appendStringBody fuel ((b :: rest).drop d.2)

/-- `appendString` of package json: a Go string as a JSON string literal. -/
def appendString (s : GoString) : GoString :=
  quote :: appendStringBody s.length s ++ [quote]

/-- The encoding of a `bool`. -/
def marshalBool (b : Bool) : GoString := if b then ascii "true" else ascii "false"

/-- The encoding of a `FileInfo`: its fields in the order of declaration under
the names of the struct tags. -/
def marshalFileInfo (fi : FileInfo) : GoString :=
  ascii "\x7b\"file_name\":" ++ appendString fi.FileName ++
    ascii ",\"is_processed\":" ++ marshalBool fi.IsProcessed ++
    ascii ",\"is_processing\":" ++ marshalBool fi.IsProcessingRN ++ ascii "\x7d"

/-- The encoding of a `*FileInfo`: `null` for the nil pointer. -/
def marshalValue : Option FileInfo → GoString
  | none => ascii "null"
  | some fi => marshalFileInfo fi

/-- One member of the encoded map. -/
def marshalEntry (e : GoString × Option FileInfo) : GoString :=
  appendString e.1 ++ ascii ":" ++ marshalValue e.2

/-- The members of the encoded map, separated by commas. -/
def marshalEntries : List (GoString × Option FileInfo) → GoString
  | [] => []
  | [e] => marshalEntry e
  | e :: es => marshalEntry e ++ ascii "," ++ marshalEntries es

/-- Go's `strings.Compare(a, b) <= 0`: the order of the bytes. -/
def bytesLE : GoString → GoString → Bool
  | [], _ => true
  | _ :: _, [] => false
  | a :: as, b :: bs => decide (a.val < b.val) || (decide (a = b) && bytesLE as bs)

/-- The entries in the order in which the map encoder writes them: sorted by
key. -/
def sortedEntries (fm : FileInfoMap) : List (GoString × Option FileInfo) :=
  fm.insertionSort (fun a b => bytesLE a.1 b.1 = true)

/-- Go's `json.Marshal(fm.fmap)`. -/
def Marshal (fm : FileInfoMap) : GoString :=
  ascii "\x7b" ++ marshalEntries (sortedEntries fm) ++ ascii "\x7d"

/-- The bytes that `PersistMap` writes to `./fileMap.json`. -/
def PersistMap (fm : FileInfoMap) : GoString := Marshal fm

/-- The value of a hexadecimal digit, as `getu4` of package json reads it. -/
def hexVal (c : Byte) : Option Nat :=
  if 48 ≤ c.val ∧ c.val ≤ 57 then some (c.val - 48)
  else if 97 ≤ c.val ∧ c.val ≤ 102 then some (c.val - 97 + 10)
  else if 65 ≤ c.val ∧ c.val ≤ 70 then some (c.val - 65 + 10)
  else none

/-- `getu4` of package json: the number that the four hexadecimal digits after
a leading `\u` denote; `none` where `getu4` returns -1. -/
def getu4 : GoString → Option Nat
  | b0 :: b1 :: h0 :: h1 :: h2 :: h3 :: _ =>
    if b0 = backslash ∧ b1 = byte 117 then
      match hexVal h0, hexVal h1, hexVal h2, hexVal h3 with
      | some a, some b, some c, some d => some (((a * 16 + b) * 16 + c) * 16 + d)
      | _, _, _, _ => none
    else none
  | _ => none

/-- Go's `utf16.IsSurrogate`. -/
def isSurrogate (r : Nat) : Bool := decide (0xD800 ≤ r ∧ r < 0xE000)

/-- Go's `utf16.DecodeRune`: the rune of a surrogate pair, U+FFFD for anything
else. -/
def utf16DecodeRune (r1 r2 : Nat) : Nat :=
  if 0xD800 ≤ r1 ∧ r1 < 0xDC00 ∧ 0xDC00 ≤ r2 ∧ r2 < 0xE000 then
    (r1 - 0xD800) * 1024 + (r2 - 0xDC00) + 0x10000
  else runeError

/-- The byte that a one-letter escape of a JSON string stands for. -/
def simpleEscape (e : Byte) : Option Byte :=
  if e.val = 0x22 ∨ e.val = 0x5C ∨ e.val = 0x2F then some e
  else if e.val = 0x62 then some (byte 0x08)
  else if e.val = 0x66 then some (byte 0x0C)
  else if e.val = 0x6E then some (byte 0x0A)
  else if e.val = 0x72 then some (byte 0x0D)
  else if e.val = 0x74 then some (byte 0x09)
  else none

/-- The scanner of package json inside a string literal together with
`unquoteBytes`: reads the text after the opening quote up to the closing one
and gives the Go string it denotes and the text after the closing quote.
Escapes are resolved, a surrogate pair of `\u` escapes is one rune, and bytes
that are not valid UTF-8 become U+FFFD. `none` for a syntax error. -/
def unquoteBody : Nat → GoString → Option (GoString × GoString)
  | 0, _ => none
  | _ + 1, [] => none
  | fuel + 1, b :: rest =>
    if b = quote then some ([], rest)
    else if b = backslash then
      match rest with
      | [] => none
      | e :: rest1 =>
        if e = byte 117 then
          match getu4 (b :: rest) with
          | none => none
          | some rr =>
            let rest2 := rest1.drop 4
            if isSurrogate rr then
              match getu4 rest2 with
              | some rr1 =>
                if utf16DecodeRune rr rr1 = runeError then
                  (unquoteBody fuel rest2).map (fun p => (encodeRune runeError ++ p.1, p.2))
                else
                  (unquoteBody fuel (rest2.drop 6)).map
                    (fun p => (encodeRune (utf16DecodeRune rr rr1) ++ p.1, p.2))
              | none =>
                (unquoteBody fuel rest2).map (fun p => (encodeRune runeError ++ p.1, p.2))
            else (unquoteBody fuel rest2).map (fun p => (encodeRune rr ++ p.1, p.2))
        else
          match simpleEscape e with
          | some c => (unquoteBody fuel rest1).map (fun p => (c :: p.1, p.2))
          | none => none
    else if b.val < 0x20 then none
    else if b.val < 0x80 then (unquoteBody fuel rest).map (fun p => (b :: p.1, p.2))
    else
      let d := decodeRune (b :: rest)
      (unquoteBody fuel ((b :: rest).drop d.2)).map (fun p => (encodeRune d.1 ++ p.1, p.2))

/-- `isSpace` of package json. -/
def isSpace (b : Byte) : Bool :=
  decide (b.val = 0x20 ∨ b.val = 0x09 ∨ b.val = 0x0D ∨ b.val = 0x0A)

/-- The text without its leading white space. -/
def skipSpace : GoString → GoString
  | [] => []
  | b :: rest => if isSpace b then skipSpace rest else b :: rest

/-- The text after a literal, when the text starts with it. -/
def literal (p s : GoString) : Option GoString :=
  if p.isPrefixOf s then some (s.drop p.length) else none

/-- A JSON string literal at the head of the text: the Go string and the text
after it. -/
def parseString : GoString → Option (GoString × GoString)
  | [] => none
  | b :: rest => if b = quote then unquoteBody rest.length rest else none

/-- The literal `true` or `false` at the head of the text. -/
def parseBool (s : GoString) : Option (Bool × GoString) :=
  match literal (ascii "true") s with
  | some r => some (true, r)
  | none =>
    match literal (ascii "false") s with
    | some r => some (false, r)
    | none => none

/-- One member of the object of a `FileInfo`: the field that the member's name
selects is set to the member's value, and left as it is by `null`. -/
def parseMember (fi : FileInfo) (s : GoString) : Option (FileInfo × GoString) :=
  match parseString s with
  | none => none
  | some (key, r1) =>
    match skipSpace r1 with
    | [] => none
    | c :: r2 =>
      if c = byte 58 then
        let r3 := skipSpace r2
        match literal (ascii "null") r3 with
        | some r4 =>
          if key = ascii "file_name" ∨ key = ascii "is_processed" ∨
              key = ascii "is_processing" then some (fi, r4)
          else none
        | none =>
          if key = ascii "file_name" then
            (parseString r3).map (fun p => ({ fi with FileName := p.1 }, p.2))
          else if key = ascii "is_processed" then
            (parseBool r3).map (fun p => ({ fi with IsProcessed := p.1 }, p.2))
          else if key = ascii "is_processing" then
            (parseBool r3).map (fun p => ({ fi with IsProcessingRN := p.1 }, p.2))
          else none
      else none

/-- The members of the object of a `FileInfo` up to the closing brace, the
first text being the text after the opening brace or after a comma. -/
def parseMembers : Nat → FileInfo → GoString → Option (FileInfo × GoString)
  | 0, _, _ => none
  | fuel + 1, fi, s =>
    match parseMember fi (skipSpace s) with
    | none => none
    | some (fi1, r) =>
      match skipSpace r with
      | [] => none
      | c :: r1 =>
        if c = byte 44 then parseMembers fuel fi1 r1
        else if c = byte 125 then some (fi1, r1)
        else none

/-- The object of a `FileInfo`, read into a fresh zero `FileInfo`; the text is
the text after the opening brace. -/
def parseFileInfo (s : GoString) : Option (FileInfo × GoString) :=
  match skipSpace s with
  | [] => none
  | c :: r =>
    if c = byte 125 then
      some ({ FileName := [], IsProcessed := false, IsProcessingRN := false }, r)
    else
      parseMembers s.length { FileName := [], IsProcessed := false, IsProcessingRN := false } s

/-- The value of a map member, a `*FileInfo`: `null` is the nil pointer, an
object a pointer to a new `FileInfo`. -/
def parseValue (s : GoString) : Option (Option FileInfo × GoString) :=
  match literal (ascii "null") s with
  | some r => some (none, r)
  | none =>
    match s with
    | [] => none
    | c :: r => if c = byte 123 then (parseFileInfo r).map (fun p => (some p.1, p.2)) else none

/-- The members of the top-level object up to the closing brace, each assigned
to the map in turn; the first text is the text after the opening brace or
after a comma. -/
def parseEntries : Nat → FileInfoMap → GoString → Option (FileInfoMap × GoString)
  | 0, _, _ => none
  | fuel + 1, m, s =>
    match parseString (skipSpace s) with
    | none => none
    | some (key, r1) =>
      match skipSpace r1 with
      | [] => none
      | c :: r2 =>
        if c = byte 58 then
          match parseValue (skipSpace r2) with
          | none => none
          | some (v, r3) =>
            match skipSpace r3 with
            | [] => none
            | c1 :: r4 =>
              if c1 = byte 44 then parseEntries fuel (mapAssign m key v) r4
              else if c1 = byte 125 then some (mapAssign m key v, r4)
              else none
        else none

/-- Go's `json.Unmarshal(data, &m)` for `m` a non-nil `map[string]*FileInfo`, on
texts of the snapshot format: a top-level object whose members are `null` or
objects with the members `file_name` (a string), `is_processed` and
`is_processing` (booleans), each possibly `null`, in any order and number, with
white space between the tokens. The result is `none` for a text outside this
format, on which the library reports an error or follows rules not embedded
here (a top-level `null`, unknown or case-folded member names). -/
def Unmarshal (data : GoString) (m : FileInfoMap) : Option FileInfoMap :=
  match skipSpace data with
  | [] => none
  | c :: r =>
    if c = byte 123 then
      match skipSpace r with
      | [] => none
      | c1 :: r1 =>
        if c1 = byte 125 then (if skipSpace r1 = [] then some m else none)
        else
          match parseEntries data.length m r with
          | none => none
          | some (m1, rest) => if skipSpace rest = [] then some m1 else none
    else none

/-- The registry with which `main` starts: `fm.fmap = make(...)`, then
`json.Unmarshal(data, &fm.fmap)` on the bytes of `./fileMap.json`; `none` where
`main` panics. -/
def loadSnapshot (data : GoString) : Option FileInfoMap := Unmarshal data []

/-- Whether the key of an entry and the file name of its record are valid
UTF-8. -/
def validEntry (e : GoString × Option FileInfo) : Bool :=
  ValidString e.1 &&
    (match e.2 with
      | none => true
      | some fi => ValidString fi.FileName)

/-- Whether every fileId and every fileName of the registry is valid UTF-8. -/
def validNames (fm : FileInfoMap) : Bool := fm.all validEntry

/-- The registry has one entry per key, as every Go map has. -/
def uniqueKeys (fm : FileInfoMap) : Prop := (fm.map Prod.fst).Nodup

instance (fm : FileInfoMap) : Decidable (uniqueKeys fm) := by
  unfold uniqueKeys
  infer_instance

/-! ## Lemmas on the map primitives -/

theorem mapLookup_mapAssign_same (m : FileInfoMap) (key : GoString) (v : Option FileInfo) :
    mapLookup (mapAssign m key v) key = some v := by
  induction m with
  | nil => simp [mapAssign, mapLookup]
  | cons e rest ih =>
    obtain ⟨k, x⟩ := e
    by_cases h : k = key
    · simp [mapAssign, mapLookup, h]
    · simp [mapAssign, mapLookup, h, ih]

theorem mapLookup_mapAssign_other (m : FileInfoMap) (key k' : GoString) (v : Option FileInfo)
    (hne : k' ≠ key) : mapLookup (mapAssign m key v) k' = mapLookup m k' := by
  induction m with
  | nil =>
    have : ¬ key = k' := fun h => hne h.symm
    simp [mapAssign, mapLookup, this]
  | cons e rest ih =>
    obtain ⟨k, x⟩ := e
    by_cases h : k = key
    · subst h
      have : ¬ k = k' := fun h => hne h.symm
      simp [mapAssign, mapLookup, this]
    · by_cases h2 : k = k'
      · subst h2
        simp [mapAssign, mapLookup, h]
      · simp [mapAssign, mapLookup, h, h2, ih]

theorem entryCount_mapAssign_other (m : FileInfoMap) (key k' : GoString) (v : Option FileInfo)
    (hne : k' ≠ key) : entryCount (mapAssign m key v) k' = entryCount m k' := by
  induction m with
  | nil =>
    have : ¬ key = k' := fun h => hne h.symm
    simp [mapAssign, entryCount, this]
  | cons e rest ih =>
    obtain ⟨k, x⟩ := e
    unfold entryCount at ih ⊢
    by_cases h : k = key
    · subst h
      have : ¬ k = k' := fun h => hne h.symm
      simp [mapAssign, this]
    · by_cases h2 : k = k'
      · subst h2
        simp [mapAssign, h, List.filter_cons, ih]
      · simp [mapAssign, h, h2, List.filter_cons, ih]

theorem entryCount_eq_zero_of_lookup_none (m : FileInfoMap) (key : GoString)
    (h : mapLookup m key = none) : entryCount m key = 0 := by
  induction m with
  | nil => simp [entryCount]
  | cons e rest ih =>
    obtain ⟨k, x⟩ := e
    unfold entryCount at ih ⊢
    by_cases hk : k = key
    · simp [mapLookup, hk] at h
    · simp [mapLookup, hk] at h
      simp [List.filter_cons, hk, ih h]

theorem entryCount_mapAssign_absent (m : FileInfoMap) (key : GoString) (v : Option FileInfo)
    (h : mapLookup m key = none) : entryCount (mapAssign m key v) key = 1 := by
  induction m with
  | nil => simp [mapAssign, entryCount]
  | cons e rest ih =>
    obtain ⟨k, x⟩ := e
    unfold entryCount at ih ⊢
    by_cases hk : k = key
    · simp [mapLookup, hk] at h
    · simp [mapLookup, hk] at h
      simp [mapAssign, List.filter_cons, hk, ih h]

theorem entryCount_mapAssign_present (m : FileInfoMap) (key : GoString) (v w : Option FileInfo)
    (h : mapLookup m key = some w) : entryCount (mapAssign m key v) key = entryCount m key := by
  induction m with
  | nil => simp [mapLookup] at h
  | cons e rest ih =>
    obtain ⟨k, x⟩ := e
    unfold entryCount at ih ⊢
    by_cases hk : k = key
    · simp [mapAssign, List.filter_cons, hk]
    · simp [mapLookup, hk] at h
      simp [mapAssign, List.filter_cons, hk, ih h]

theorem ensure_of_absent (fm : FileInfoMap) (fileId fileName : GoString)
    (h : mapLookup fm fileId = none) :
    ensure fm fileId fileName = WriteFileInfo fm fileId fileName := by
  simp [ensure, ReadFileInfo, h]

theorem ensure_of_present (fm : FileInfoMap) (fileId fileName : GoString)
    (h : mapLookup fm fileId ≠ none) : ensure fm fileId fileName = fm := by
  cases hv : mapLookup fm fileId with
  | none => exact absurd hv h
  | some v => simp [ensure, ReadFileInfo, hv]

theorem ensure_lookup_ne_none (fm : FileInfoMap) (fileId fileName : GoString) :
    mapLookup (ensure fm fileId fileName) fileId ≠ none := by
  cases hv : mapLookup fm fileId with
  | none =>
    rw [ensure_of_absent fm fileId fileName hv, WriteFileInfo, mapLookup_mapAssign_same]
    simp
  | some v =>
    rw [ensure_of_present fm fileId fileName (by simp [hv]), hv]
    simp

theorem ensure_ensure (fm : FileInfoMap) (fileId fileName : GoString) :
    ensure (ensure fm fileId fileName) fileId fileName = ensure fm fileId fileName :=
  ensure_of_present _ _ _ (ensure_lookup_ne_none fm fileId fileName)

theorem mapIndex_of_lookup (m : FileInfoMap) (key : GoString) (v : Option FileInfo)
    (h : mapLookup m key = some v) : mapIndex m key = v := by
  simp [mapIndex, h]

theorem mapIndex_of_absent (m : FileInfoMap) (key : GoString)
    (h : mapLookup m key = none) : mapIndex m key = none := by
  simp [mapIndex, h]

theorem mapIndex_some_lookup (m : FileInfoMap) (key : GoString) (fi : FileInfo)
    (h : mapIndex m key = some fi) : mapLookup m key = some (some fi) := by
  unfold mapIndex at h
  cases hv : mapLookup m key with
  | none => rw [hv] at h; cases h
  | some v => rw [hv] at h; simp only at h; rw [h]

theorem markStart_of_record (fm : FileInfoMap) (fileId : GoString) (fi : FileInfo)
    (h : mapLookup fm fileId = some (some fi)) :
    ChangeVideoIsProcessedStatusTrue fm fileId =
      (mapAssign fm fileId (some { fi with IsProcessingRN := true }), none) := by
  simp [ChangeVideoIsProcessedStatusTrue, mapIndex_of_lookup fm fileId _ h]

theorem markEnd_of_record (fm : FileInfoMap) (fileId : GoString) (fi : FileInfo)
    (h : mapLookup fm fileId = some (some fi)) :
    ChangeVideoIsProcessedStatusFalse fm fileId =
      (mapAssign fm fileId (some { fi with IsProcessingRN := false }), none) := by
  simp [ChangeVideoIsProcessedStatusFalse, mapIndex_of_lookup fm fileId _ h]

theorem markProcessed_of_record (fm : FileInfoMap) (fileId : GoString) (fi : FileInfo)
    (h : mapLookup fm fileId = some (some fi)) :
    ChangeVideoProcessedStatus fm fileId =
      (mapAssign fm fileId (some { fi with IsProcessed := true }), none) := by
  simp [ChangeVideoProcessedStatus, mapIndex_of_lookup fm fileId _ h]

theorem processVideo_of_record (fm : FileInfoMap) (fileId : GoString) (fi : FileInfo)
    (h : mapLookup fm fileId = some (some fi)) :
    processVideo fm fileId =
      { fm := mapAssign fm fileId (some { fi with IsProcessingRN := true }), fault := none,
        response := some { status := 200, body := ascii "Started processing" },
        spawned := true } := by
  simp [processVideo, markStart_of_record fm fileId fi h]

theorem processVideoJob_of_record (run : GoString → Bool) (fm : FileInfoMap) (fileId : GoString)
    (fi : FileInfo) (h : mapLookup fm fileId = some (some fi)) :
    (processVideoJob run fm fileId).outcome = JobOutcome.finished ∧
    (processVideoJob run fm fileId).observed =
      [mapAssign fm fileId (some { fi with IsProcessingRN := false }),
        mapAssign (mapAssign fm fileId (some { fi with IsProcessingRN := false })) fileId
          (some { FileName := fi.FileName, IsProcessed := true, IsProcessingRN := false })] ∧
    (processVideoJob run fm fileId).fm =
      mapAssign (mapAssign fm fileId (some { fi with IsProcessingRN := false })) fileId
        (some { FileName := fi.FileName, IsProcessed := true, IsProcessingRN := false }) := by
  have h1 := markEnd_of_record fm fileId fi h
  have h2 := markProcessed_of_record
    (mapAssign fm fileId (some { fi with IsProcessingRN := false })) fileId
    { fi with IsProcessingRN := false } (mapLookup_mapAssign_same _ _ _)
  simp [processVideoJob, ReadFileInfo, h, h1, h2]

theorem statusPair_of_lookup (fm : FileInfoMap) (fileId : GoString) (fi : FileInfo)
    (h : mapLookup fm fileId = some (some fi)) :
    statusPair fm fileId = some (fi.IsProcessingRN, fi.IsProcessed) := by
  simp [statusPair, mapIndex_of_lookup fm fileId _ h]

/-- The steps of an upload handler that is not interleaved with other handlers
amount to the step `ensure`. -/
theorem runOps_uploadSteps (s : Handlers) (fileId fileName : GoString) :
    runOps s (uploadSteps s.fm fileId fileName) =
      some { s with fm := ensure s.fm fileId fileName } := by
  by_cases h : (ReadFileInfo s.fm fileId).2 = true
  · simp [uploadSteps, runOps, applyOp, ensure, h]
  · simp [uploadSteps, runOps, applyOp, ensure, h]

/-- Every step other than an upload handler's write for the same `fileId`
keeps the entry of a key that has a record: one entry still, the same
`FileName`, and `IsProcessed` stays true. -/
theorem applyOp_keeps_record (s s' : Handlers) (op : Op) (key : GoString) (fi : FileInfo)
    (h : mapLookup s.fm key = some (some fi)) (hstep : applyOp s op = some s')
    (hop : ∀ n, op ≠ Op.uploadWrite key n) :
    ∃ fi', mapLookup s'.fm key = some (some fi') ∧ fi'.FileName = fi.FileName ∧
      (fi.IsProcessed = true → fi'.IsProcessed = true) ∧
      entryCount s'.fm key = entryCount s.fm key := by
  have mark : ∀ (i : GoString) (g : FileInfo → FileInfo),
      (∀ x, (g x).FileName = x.FileName) →
      (∀ x, x.IsProcessed = true → (g x).IsProcessed = true) →
      ∃ fi', mapLookup
          (match mapIndex s.fm i with
            | none => (s.fm, some Fault.nilPointerDereference)
            | some x => (mapAssign s.fm i (some (g x)), none)).1 key = some (some fi') ∧
        fi'.FileName = fi.FileName ∧ (fi.IsProcessed = true → fi'.IsProcessed = true) ∧
        entryCount
          (match mapIndex s.fm i with
            | none => (s.fm, some Fault.nilPointerDereference)
            | some x => (mapAssign s.fm i (some (g x)), none)).1 key = entryCount s.fm key := by
    intro i g hname hproc
    cases hx : mapIndex s.fm i with
    | none => exact ⟨fi, h, rfl, fun hp => hp, rfl⟩
    | some x =>
      have hxl := mapIndex_some_lookup s.fm i x hx
      by_cases hik : key = i
      · subst hik
        rw [h] at hxl
        have hxe : x = fi := by
          have := Option.some.inj (Option.some.inj hxl)
          exact this.symm
        subst hxe
        exact ⟨g x, mapLookup_mapAssign_same _ _ _, hname x, hproc x,
          entryCount_mapAssign_present _ _ _ _ h⟩
      · refine ⟨fi, ?_, rfl, fun hp => hp, ?_⟩
        · simp only
          rw [mapLookup_mapAssign_other _ _ _ _ hik, h]
        · simp only
          rw [entryCount_mapAssign_other _ _ _ _ hik]
  cases op with
  | uploadLookup i n =>
    have hfm : s'.fm = s.fm := by
      simp only [applyOp] at hstep
      split at hstep <;> · cases hstep; rfl
    rw [hfm]
    exact ⟨fi, h, rfl, fun hp => hp, rfl⟩
  | uploadWrite i n =>
    have hik : key ≠ i := by
      intro e
      subst e
      exact hop n rfl
    have hfm : s'.fm = WriteFileInfo s.fm i n := by
      simp only [applyOp] at hstep
      split at hstep
      · cases hstep; rfl
      · cases hstep
    rw [hfm, WriteFileInfo]
    refine ⟨fi, ?_, rfl, fun hp => hp, ?_⟩
    · rw [mapLookup_mapAssign_other _ _ _ _ hik, h]
    · rw [entryCount_mapAssign_other _ _ _ _ hik]
  | markProcessingStart i =>
    have hfm : s'.fm = (ChangeVideoIsProcessedStatusTrue s.fm i).1 := by
      simp only [applyOp] at hstep
      cases hstep; rfl
    rw [hfm]
    exact mark i (fun x => { x with IsProcessingRN := true }) (fun _ => rfl) (fun _ hp => hp)
  | markProcessingEnd i =>
    have hfm : s'.fm = (ChangeVideoIsProcessedStatusFalse s.fm i).1 := by
      simp only [applyOp] at hstep
      cases hstep; rfl
    rw [hfm]
    exact mark i (fun x => { x with IsProcessingRN := false }) (fun _ => rfl) (fun _ hp => hp)
  | markProcessed i =>
    have hfm : s'.fm = (ChangeVideoProcessedStatus s.fm i).1 := by
      simp only [applyOp] at hstep
      cases hstep; rfl
    rw [hfm]
    exact mark i (fun x => { x with IsProcessed := true }) (fun _ => rfl) (fun _ _ => rfl)

/-- A sequence of steps without an upload handler's write for `key` keeps the
entry of `key` once it has a record. -/
theorem runOps_keeps_record (ops : List Op) (s s' : Handlers) (key : GoString) (fi : FileInfo)
    (h : mapLookup s.fm key = some (some fi)) (hrun : runOps s ops = some s')
    (hops : ∀ op ∈ ops, ∀ n, op ≠ Op.uploadWrite key n) :
    ∃ fi', mapLookup s'.fm key = some (some fi') ∧ fi'.FileName = fi.FileName ∧
      (fi.IsProcessed = true → fi'.IsProcessed = true) ∧
      entryCount s'.fm key = entryCount s.fm key := by
  induction ops generalizing s fi with
  | nil =>
    simp only [runOps, Option.some.injEq] at hrun
    subst hrun
    exact ⟨fi, h, rfl, fun hp => hp, rfl⟩
  | cons op rest ih =>
    simp only [runOps] at hrun
    cases hs : applyOp s op with
    | none => rw [hs] at hrun; cases hrun
    | some s1 =>
      rw [hs] at hrun
      obtain ⟨fi1, h1, hn1, hp1, hc1⟩ :=
        applyOp_keeps_record s s1 op key fi h hs (hops op (List.mem_cons_self _ _))
      obtain ⟨fi2, h2, hn2, hp2, hc2⟩ :=
        ih s1 fi1 h1 hrun (fun o ho => hops o (List.mem_cons_of_mem _ ho))
      exact ⟨fi2, h2, hn2.trans hn1, fun hp => hp2 (hp1 hp), hc2.trans hc1⟩

theorem stringsSplit_ne_nil (sep : Byte) (s : GoString) : stringsSplit sep s ≠ [] := by
  cases s with
  | nil => simp [stringsSplit]
  | cons b rest =>
    unfold stringsSplit
    by_cases hb : b = sep
    · simp [hb]
    · simp only [hb, if_false]
      cases stringsSplit sep rest <;> simp

theorem stringsSplit_append_sep (sep : Byte) (a b : GoString) :
    stringsSplit sep (a ++ sep :: b) = stringsSplit sep a ++ stringsSplit sep b := by
  induction a with
  | nil => simp [stringsSplit]
  | cons x a ih =>
    by_cases hx : x = sep
    · simp [stringsSplit, hx, ih]
    · have e1 : stringsSplit sep (x :: (a ++ sep :: b)) =
          (match stringsSplit sep (a ++ sep :: b) with
            | [] => [[x]]
            | w :: ws => (x :: w) :: ws) := by
        simp [stringsSplit, hx]
      have e2 : stringsSplit sep (x :: a) =
          (match stringsSplit sep a with
            | [] => [[x]]
            | w :: ws => (x :: w) :: ws) := by
        simp [stringsSplit, hx]
      rw [List.cons_append, e1, e2, ih]
      cases hs : stringsSplit sep a with
      | nil => exact absurd hs (stringsSplit_ne_nil sep a)
      | cons w ws => simp

theorem stringsSplit_of_not_mem (sep : Byte) (s : GoString) (h : sep ∉ s) :
    stringsSplit sep s = [s] := by
  induction s with
  | nil => simp [stringsSplit]
  | cons b rest ih =>
    have hb : ¬ b = sep := fun e => h (by simp [e])
    have hr : sep ∉ rest := fun e => h (by simp [e])
    simp [stringsSplit, hb, ih hr]

theorem getLastD_append_of_ne_nil {α : Type} (l1 l2 : List α) (d : α) (h : l2 ≠ []) :
    (l1 ++ l2).getLastD d = l2.getLastD d := by
  cases l2 with
  | nil => exact absurd rfl h
  | cons y ys =>
    rw [List.getLastD_eq_getLast?, List.getLastD_eq_getLast?,
      List.getLast?_append_of_ne_nil _ (by simp)]

/-! ## Lemmas on UTF-8 and on the JSON encoding -/

theorem byte_val_of_lt (n : Nat) (h : n < 256) : (byte n).val = n := by
  simp [byte, Nat.mod_eq_of_lt h]

theorem byte_eq_of_val (b : Byte) (n : Nat) (h : n = b.val) : byte n = b := by
  apply Fin.ext
  subst h
  simp [byte, Nat.mod_eq_of_lt b.isLt]

/-- The shapes of a result of `decodeRune` on a non-empty text. -/
theorem decodeRune_cases (b : Byte) (rest : GoString) :
    (b.val < 0x80 ∧ decodeRune (b :: rest) = (b.val, 1)) ∨
    (0x80 ≤ b.val ∧ decodeRune (b :: rest) = (runeError, 1)) ∨
    (∃ b1 t, rest = b1 :: t ∧ 0xC2 ≤ b.val ∧ b.val < 0xE0 ∧ 0x80 ≤ b1.val ∧ b1.val ≤ 0xBF ∧
      decodeRune (b :: rest) = ((b.val % 32) * 64 + b1.val % 64, 2)) ∨
    (∃ b1 b2 t, rest = b1 :: b2 :: t ∧ 0xE0 ≤ b.val ∧ b.val < 0xF0 ∧
      (if b.val = 0xE0 then 0xA0 else 0x80) ≤ b1.val ∧
      b1.val ≤ (if b.val = 0xED then 0x9F else 0xBF) ∧ 0x80 ≤ b2.val ∧ b2.val ≤ 0xBF ∧
      decodeRune (b :: rest) =
        ((b.val % 16) * 4096 + (b1.val % 64) * 64 + b2.val % 64, 3)) ∨
    (∃ b1 b2 b3 t, rest = b1 :: b2 :: b3 :: t ∧ 0xF0 ≤ b.val ∧ b.val < 0xF5 ∧
      (if b.val = 0xF0 then 0x90 else 0x80) ≤ b1.val ∧
      b1.val ≤ (if b.val = 0xF4 then 0x8F else 0xBF) ∧ 0x80 ≤ b2.val ∧ b2.val ≤ 0xBF ∧
      0x80 ≤ b3.val ∧ b3.val ≤ 0xBF ∧
      decodeRune (b :: rest) =
        ((b.val % 8) * 262144 + (b1.val % 64) * 4096 + (b2.val % 64) * 64 + b3.val % 64, 4)) := by
  by_cases h1 : b.val < 0x80
  · left
    exact ⟨h1, by simp [decodeRune, h1]⟩
  have h1' : 0x80 ≤ b.val := Nat.le_of_not_lt h1
  by_cases h2 : b.val < 0xC2
  · right; left
    exact ⟨h1', by simp [decodeRune, h1, h2]⟩
  by_cases h3 : b.val < 0xE0
  · cases rest with
    | nil => right; left; exact ⟨h1', by simp [decodeRune, h1, h2, h3]⟩
    | cons b1 t =>
      by_cases hc : 0x80 ≤ b1.val ∧ b1.val ≤ 0xBF
      · right; right; left
        exact ⟨b1, t, rfl, Nat.le_of_not_lt h2, h3, hc.1, hc.2, by simp [decodeRune, h1, h2, h3, hc]⟩
      · right; left
        exact ⟨h1', by simp [decodeRune, h1, h2, h3, hc]⟩
  by_cases h4 : b.val < 0xF0
  · match rest with
    | [] => right; left; exact ⟨h1', by simp [decodeRune, h1, h2, h3, h4]⟩
    | [b1] => right; left; exact ⟨h1', by simp [decodeRune, h1, h2, h3, h4]⟩
    | b1 :: b2 :: t =>
      by_cases hc : (if b.val = 0xE0 then 0xA0 else 0x80) ≤ b1.val ∧
          b1.val ≤ (if b.val = 0xED then 0x9F else 0xBF) ∧ 0x80 ≤ b2.val ∧ b2.val ≤ 0xBF
      · right; right; right; left
        exact ⟨b1, b2, t, rfl, Nat.le_of_not_lt h3, h4, hc.1, hc.2.1, hc.2.2.1, hc.2.2.2,
          by simp only [decodeRune, h1, h2, h3, h4, if_false, if_true, hc, and_self]⟩
      · right; left
        exact ⟨h1', by simp only [decodeRune, h1, h2, h3, h4, if_false, if_true, hc]⟩
  by_cases h5 : b.val < 0xF5
  · match rest with
    | [] => right; left; exact ⟨h1', by simp [decodeRune, h1, h2, h3, h4, h5]⟩
    | [b1] => right; left; exact ⟨h1', by simp [decodeRune, h1, h2, h3, h4, h5]⟩
    | [b1, b2] => right; left; exact ⟨h1', by simp [decodeRune, h1, h2, h3, h4, h5]⟩
    | b1 :: b2 :: b3 :: t =>
      by_cases hc : (if b.val = 0xF0 then 0x90 else 0x80) ≤ b1.val ∧
          b1.val ≤ (if b.val = 0xF4 then 0x8F else 0xBF) ∧ 0x80 ≤ b2.val ∧ b2.val ≤ 0xBF ∧
          0x80 ≤ b3.val ∧ b3.val ≤ 0xBF
      · right; right; right; right
        exact ⟨b1, b2, b3, t, rfl, Nat.le_of_not_lt h4, h5, hc.1, hc.2.1, hc.2.2.1, hc.2.2.2.1,
          hc.2.2.2.2.1, hc.2.2.2.2.2,
          by simp only [decodeRune, h1, h2, h3, h4, h5, if_false, if_true, hc, and_self]⟩
      · right; left
        exact ⟨h1', by simp only [decodeRune, h1, h2, h3, h4, h5, if_false, if_true, hc]⟩
  · right; left
    exact ⟨h1', by simp [decodeRune, h1, h2, h3, h4, h5]⟩


/-- For a valid encoding at the head of a text, `encodeRune` of the decoded
rune gives back the bytes read. -/
theorem encodeRune_decodeRune (b : Byte) (rest : GoString)
    (hv : ¬ ((decodeRune (b :: rest)).1 = runeError ∧ (decodeRune (b :: rest)).2 = 1)) :
    encodeRune (decodeRune (b :: rest)).1 = (b :: rest).take (decodeRune (b :: rest)).2 := by
  have hb := b.isLt
  rcases decodeRune_cases b rest with ⟨h1, hd⟩ | ⟨_, hd⟩ | ⟨b1, t, hr, h1, h2, h3, h4, hd⟩ |
    ⟨b1, b2, t, hr, h1, h2, h3, h4, h5, h6, hd⟩ |
    ⟨b1, b2, b3, t, hr, h1, h2, h3, h4, h5, h6, h7, h8, hd⟩
  · rw [hd]
    have : b.val ≤ 0x7F := by omega
    simp only [encodeRune, this, if_true, List.take_succ_cons, List.take_zero]
    rw [byte_eq_of_val b _ rfl]
  · rw [hd] at hv
    exact absurd ⟨rfl, rfl⟩ hv
  · subst hr
    rw [hd]
    have hb1 := b1.isLt
    have e1 : ¬ (b.val % 32 * 64 + b1.val % 64 ≤ 0x7F) := by omega
    have e2 : b.val % 32 * 64 + b1.val % 64 ≤ 0x7FF := by omega
    simp only [encodeRune, e1, e2, if_true, if_false, List.take_succ_cons, List.take_zero]
    rw [byte_eq_of_val b _ (by omega), byte_eq_of_val b1 _ (by omega)]
  · subst hr
    rw [hd]
    have hb1 := b1.isLt
    have hb2 := b2.isLt
    have h3' : 0x80 ≤ b1.val := by split at h3 <;> omega
    have h4' : b1.val ≤ 0xBF := by split at h4 <;> omega
    have h3'' : b.val = 0xE0 → 0xA0 ≤ b1.val := by intro e; simpa [e] using h3
    have h4'' : b.val = 0xED → b1.val ≤ 0x9F := by intro e; simpa [e] using h4
    have e1 : ¬ (b.val % 16 * 4096 + b1.val % 64 * 64 + b2.val % 64 ≤ 0x7F) := by omega
    have e2 : ¬ (b.val % 16 * 4096 + b1.val % 64 * 64 + b2.val % 64 ≤ 0x7FF) := by omega
    have e3 : ¬ (0x10FFFF < b.val % 16 * 4096 + b1.val % 64 * 64 + b2.val % 64 ∨
        (0xD800 ≤ b.val % 16 * 4096 + b1.val % 64 * 64 + b2.val % 64 ∧
          b.val % 16 * 4096 + b1.val % 64 * 64 + b2.val % 64 ≤ 0xDFFF)) := by omega
    have e4 : b.val % 16 * 4096 + b1.val % 64 * 64 + b2.val % 64 ≤ 0xFFFF := by omega
    simp only [encodeRune, e1, e2, e3, e4, if_true, if_false, List.take_succ_cons, List.take_zero]
    rw [byte_eq_of_val b _ (by omega), byte_eq_of_val b1 _ (by omega),
      byte_eq_of_val b2 _ (by omega)]
  · subst hr
    rw [hd]
    have hb1 := b1.isLt
    have hb2 := b2.isLt
    have hb3 := b3.isLt
    have h3' : 0x80 ≤ b1.val := by split at h3 <;> omega
    have h4' : b1.val ≤ 0xBF := by split at h4 <;> omega
    have h3'' : b.val = 0xF0 → 0x90 ≤ b1.val := by intro e; simpa [e] using h3
    have h4'' : b.val = 0xF4 → b1.val ≤ 0x8F := by intro e; simpa [e] using h4
    have e1 : ¬ (b.val % 8 * 262144 + b1.val % 64 * 4096 + b2.val % 64 * 64 + b3.val % 64
        ≤ 0x7F) := by omega
    have e2 : ¬ (b.val % 8 * 262144 + b1.val % 64 * 4096 + b2.val % 64 * 64 + b3.val % 64
        ≤ 0x7FF) := by omega
    have e3 : ¬ (0x10FFFF < b.val % 8 * 262144 + b1.val % 64 * 4096 + b2.val % 64 * 64 +
          b3.val % 64 ∨
        (0xD800 ≤ b.val % 8 * 262144 + b1.val % 64 * 4096 + b2.val % 64 * 64 + b3.val % 64 ∧
          b.val % 8 * 262144 + b1.val % 64 * 4096 + b2.val % 64 * 64 + b3.val % 64
            ≤ 0xDFFF)) := by omega
    have e4 : ¬ (b.val % 8 * 262144 + b1.val % 64 * 4096 + b2.val % 64 * 64 + b3.val % 64
        ≤ 0xFFFF) := by omega
    simp only [encodeRune, e1, e2, e3, e4, if_true, if_false, List.take_succ_cons, List.take_zero]
    rw [byte_eq_of_val b _ (by omega), byte_eq_of_val b1 _ (by omega),
      byte_eq_of_val b2 _ (by omega), byte_eq_of_val b3 _ (by omega)]

/-- A valid encoding has a width between 1 and 4 and lies within the text. -/
theorem decodeRune_width (b : Byte) (rest : GoString) :
    1 ≤ (decodeRune (b :: rest)).2 ∧ (decodeRune (b :: rest)).2 ≤ (b :: rest).length := by
  rcases decodeRune_cases b rest with ⟨_, hd⟩ | ⟨_, hd⟩ | ⟨b1, t, hr, _, _, _, _, hd⟩ |
    ⟨b1, b2, t, hr, _, _, _, _, _, _, hd⟩ |
    ⟨b1, b2, b3, t, hr, _, _, _, _, _, _, _, _, hd⟩ <;>
  · rw [hd]
    try subst hr
    simp

/-- The result of `decodeRune` on a valid encoding depends on the bytes of
that encoding only. -/
theorem decodeRune_take_append (b : Byte) (rest t : GoString)
    (hv : ¬ ((decodeRune (b :: rest)).1 = runeError ∧ (decodeRune (b :: rest)).2 = 1)) :
    decodeRune ((b :: rest).take (decodeRune (b :: rest)).2 ++ t) = decodeRune (b :: rest) := by
  rcases decodeRune_cases b rest with ⟨h1, hd⟩ | ⟨_, hd⟩ | ⟨b1, t', hr, h1, h2, h3, h4, hd⟩ |
    ⟨b1, b2, t', hr, h1, h2, h3, h4, h5, h6, hd⟩ |
    ⟨b1, b2, b3, t', hr, h1, h2, h3, h4, h5, h6, h7, h8, hd⟩
  · rw [hd]
    simp [decodeRune, h1]
  · rw [hd] at hv
    exact absurd ⟨rfl, rfl⟩ hv
  · subst hr
    rw [hd]
    have n1 : ¬ b.val < 0x80 := by omega
    have n2 : ¬ b.val < 0xC2 := by omega
    simp [decodeRune, n1, n2, h2, h3, h4]
  · subst hr
    rw [hd]
    have n1 : ¬ b.val < 0x80 := by omega
    have n2 : ¬ b.val < 0xC2 := by omega
    have n3 : ¬ b.val < 0xE0 := by omega
    simp only [List.take_succ_cons, List.take_zero, List.cons_append, List.nil_append,
      decodeRune, n1, n2, n3, h2, h3, h4, h5, h6, if_true, if_false, and_self]
  · subst hr
    rw [hd]
    have n1 : ¬ b.val < 0x80 := by omega
    have n2 : ¬ b.val < 0xC2 := by omega
    have n3 : ¬ b.val < 0xE0 := by omega
    have n4 : ¬ b.val < 0xF0 := by omega
    simp only [List.take_succ_cons, List.take_zero, List.cons_append, List.nil_append,
      decodeRune, n1, n2, n3, n4, h2, h3, h4, h5, h6, h7, h8, if_true, if_false, and_self]

/-- The first byte of a multi-byte encoding is not an ASCII byte. -/
theorem decodeRune_ascii (b : Byte) (rest : GoString) (h : b.val < 0x80) :
    decodeRune (b :: rest) = (b.val, 1) := by
  simp [decodeRune, h]

theorem hexVal_hexDigit (n : Nat) (h : n < 16) : hexVal (hexDigit n) = some n := by
  interval_cases n <;> decide

theorem appendStringBody_nil (f : Nat) : appendStringBody f [] = [] := by
  cases f <;> simp [appendStringBody]

theorem validUTF8_nil (f : Nat) : validUTF8 f [] = true := by
  cases f <;> simp [validUTF8]

theorem byte_ne_of_val_ne (b : Byte) (n : Nat) (hn : n < 256) (h : b.val ≠ n) : ¬ b = byte n := by
  intro e
  apply h
  rw [e, byte_val_of_lt n hn]

theorem map_cons_eq (o : Option (GoString × GoString)) (b : Byte) :
    o.map (fun p => (b :: p.1, p.2)) = o.map (fun p => ([b] ++ p.1, p.2)) := by
  cases o <;> rfl

/-- The decoder reads a plain ASCII byte as itself. -/
theorem unquoteBody_plain (f : Nat) (b : Byte) (u : GoString) (h1 : b.val < 0x80)
    (h2 : 0x20 ≤ b.val) (h3 : b.val ≠ 0x22) (h4 : b.val ≠ 0x5C) :
    unquoteBody (f + 1) (b :: u) = (unquoteBody f u).map (fun p => (b :: p.1, p.2)) := by
  have n1 : ¬ b = quote := byte_ne_of_val_ne b 34 (by decide) h3
  have n2 : ¬ b = backslash := byte_ne_of_val_ne b 92 (by decide) h4
  have n3 : ¬ b.val < 0x20 := by omega
  simp only [unquoteBody, n1, n2, n3, h1, if_true, if_false]

/-- The decoder reads the escape of an ASCII byte as that byte. -/
theorem unquoteBody_escapeByte (f : Nat) (b : Byte) (u : GoString) (h1 : b.val < 0x80)
    (h2 : htmlSafe b = false) :
    unquoteBody (f + 1) (escapeByte b ++ u) =
      (unquoteBody f u).map (fun p => (b :: p.1, p.2)) := by
  have nq : ¬ backslash = quote := by decide
  by_cases c1 : b.val = 0x5C ∨ b.val = 0x22
  · have nu : ¬ b = byte 117 := byte_ne_of_val_ne b 117 (by decide) (by omega)
    have hs : simpleEscape b = some b := by
      have : b.val = 0x22 ∨ b.val = 0x5C ∨ b.val = 0x2F := by omega
      simp [simpleEscape, this]
    simp only [escapeByte, c1, if_true, List.cons_append, List.nil_append]
    simp only [unquoteBody, nq, if_false, if_true, nu, hs]
  have esc : ∀ (e : Byte), ¬ e = byte 117 → simpleEscape e = some b →
      unquoteBody (f + 1) (backslash :: e :: u) =
        (unquoteBody f u).map (fun p => (b :: p.1, p.2)) := by
    intro e he hs
    simp only [unquoteBody, nq, if_true, if_false, he, hs]
  by_cases c2 : b.val = 0x08
  · have hb : b = byte 8 := (byte_eq_of_val b 8 c2.symm).symm
    have : escapeByte b = [backslash, byte 0x62] := by subst hb; decide
    rw [this]
    exact esc _ (by decide) (by subst hb; decide)
  by_cases c3 : b.val = 0x0C
  · have hb : b = byte 12 := (byte_eq_of_val b 12 c3.symm).symm
    have : escapeByte b = [backslash, byte 0x66] := by subst hb; decide
    rw [this]
    exact esc _ (by decide) (by subst hb; decide)
  by_cases c4 : b.val = 0x0A
  · have hb : b = byte 10 := (byte_eq_of_val b 10 c4.symm).symm
    have : escapeByte b = [backslash, byte 0x6E] := by subst hb; decide
    rw [this]
    exact esc _ (by decide) (by subst hb; decide)
  by_cases c5 : b.val = 0x0D
  · have hb : b = byte 13 := (byte_eq_of_val b 13 c5.symm).symm
    have : escapeByte b = [backslash, byte 0x72] := by subst hb; decide
    rw [this]
    exact esc _ (by decide) (by subst hb; decide)
  by_cases c6 : b.val = 0x09
  · have hb : b = byte 9 := (byte_eq_of_val b 9 c6.symm).symm
    have : escapeByte b = [backslash, byte 0x74] := by subst hb; decide
    rw [this]
    exact esc _ (by decide) (by subst hb; decide)
  · have he : escapeByte b = [backslash, byte 117, byte 48, byte 48, hexDigit (b.val / 16),
        hexDigit (b.val % 16)] := by
      have : ascii "\\u00" = [backslash, byte 117, byte 48, byte 48] := by decide
      simp only [escapeByte, c1, c2, c3, c4, c5, c6, if_false, this, List.cons_append,
        List.nil_append]
    have hg : getu4 (backslash :: byte 117 :: byte 48 :: byte 48 :: hexDigit (b.val / 16) ::
        hexDigit (b.val % 16) :: u) = some b.val := by
      have z : hexVal (byte 48) = some 0 := by decide
      simp only [getu4, true_and, if_true, z, hexVal_hexDigit (b.val / 16) (by omega),
        hexVal_hexDigit (b.val % 16) (by omega)]
      congr 1
      omega
    have hsur : isSurrogate b.val = false := by
      simp only [isSurrogate, decide_eq_false_iff_not]
      omega
    have henc : encodeRune b.val = [b] := by
      have : b.val ≤ 0x7F := by omega
      simp only [encodeRune, this, if_true]
      rw [byte_eq_of_val b _ rfl]
    rw [he]
    simp only [List.cons_append, List.nil_append]
    simp only [unquoteBody, nq, if_true, if_false, hg, hsur,
      henc, List.drop_succ_cons, List.drop_zero, Bool.false_eq_true]
    exact (map_cons_eq _ _).symm

/-- The decoder reads the escape of U+2028 or U+2029 as the UTF-8 bytes of that
rune. -/
theorem unquoteBody_lineSep (f : Nat) (c : Nat) (u : GoString) (hc : c = 0x2028 ∨ c = 0x2029) :
    unquoteBody (f + 1) (ascii "\\u202" ++ [hexDigit (c % 16)] ++ u) =
      (unquoteBody f u).map (fun p => (encodeRune c ++ p.1, p.2)) := by
  have nq : ¬ backslash = quote := by decide
  have he : ascii "\\u202" ++ [hexDigit (c % 16)] ++ u =
      backslash :: byte 117 :: byte 50 :: byte 48 :: byte 50 :: hexDigit (c % 16) :: u := by
    have : ascii "\\u202" = [backslash, byte 117, byte 50, byte 48, byte 50] := by decide
    simp [this]
  have hg : getu4 (backslash :: byte 117 :: byte 50 :: byte 48 :: byte 50 ::
      hexDigit (c % 16) :: u) = some c := by
    have z : hexVal (byte 48) = some 0 := by decide
    have t : hexVal (byte 50) = some 2 := by decide
    simp only [getu4, true_and, if_true, z, t, hexVal_hexDigit (c % 16) (by omega)]
    congr 1
    omega
  have hsur : isSurrogate c = false := by
    simp only [isSurrogate, decide_eq_false_iff_not]
    omega
  rw [he]
  simp only [unquoteBody, nq, if_true, if_false, hg, hsur, List.drop_succ_cons, List.drop_zero,
    Bool.false_eq_true]

/-- The decoder reads the bytes of a valid multi-byte encoding as themselves. -/
theorem unquoteBody_multibyte (f : Nat) (b : Byte) (t u : GoString) (h1 : 0x80 ≤ b.val)
    (hv : ¬ ((decodeRune (b :: t)).1 = runeError ∧ (decodeRune (b :: t)).2 = 1)) :
    unquoteBody (f + 1) ((b :: t).take (decodeRune (b :: t)).2 ++ u) =
      (unquoteBody f u).map (fun p => ((b :: t).take (decodeRune (b :: t)).2 ++ p.1, p.2)) := by
  have hw := decodeRune_width b t
  have hta := decodeRune_take_append b t u hv
  have henc := encodeRune_decodeRune b t hv
  obtain ⟨k, hk⟩ : ∃ k, (decodeRune (b :: t)).2 = k + 1 := ⟨(decodeRune (b :: t)).2 - 1, by omega⟩
  have n1 : ¬ b = quote := byte_ne_of_val_ne b 34 (by decide) (by omega)
  have n2 : ¬ b = backslash := byte_ne_of_val_ne b 92 (by decide) (by omega)
  have n3 : ¬ b.val < 0x20 := by omega
  have n4 : ¬ b.val < 0x80 := by omega
  have hlen : ((b :: t).take (decodeRune (b :: t)).2).length = (decodeRune (b :: t)).2 := by
    rw [List.length_take]
    omega
  have hdrop : ((b :: t).take (decodeRune (b :: t)).2 ++ u).drop (decodeRune (b :: t)).2 = u := by
    rw [List.drop_append_eq_append_drop, hlen, Nat.sub_self, List.drop_zero,
      List.drop_eq_nil_of_le (by omega), List.nil_append]
  have hcons : (b :: t).take (decodeRune (b :: t)).2 ++ u = b :: (t.take k ++ u) := by
    rw [hk]; rfl
  have step : unquoteBody (f + 1) (b :: (t.take k ++ u)) =
      (unquoteBody f ((b :: (t.take k ++ u)).drop (decodeRune (b :: (t.take k ++ u))).2)).map
        (fun p => (encodeRune (decodeRune (b :: (t.take k ++ u))).1 ++ p.1, p.2)) := by
    simp only [unquoteBody, n1, n2, n3, n4, if_false]
  rw [hcons, step, ← hcons, hta, hdrop, henc]

theorem htmlSafe_bounds (b : Byte) (h : htmlSafe b = true) :
    0x20 ≤ b.val ∧ b.val ≠ 0x22 ∧ b.val ≠ 0x5C := by
  simp only [htmlSafe, Bool.and_eq_true, decide_eq_true_eq, Bool.not_eq_true',
    Bool.or_eq_false_iff, decide_eq_false_iff_not] at h
  omega

theorem escapeByte_length_pos (b : Byte) : 1 ≤ (escapeByte b).length := by
  unfold escapeByte
  split
  · simp
  repeat' split
  all_goals simp [ascii]

/-- Decoding the encoded body of a valid UTF-8 string, followed by the closing
quote, gives the string back and stops right after the quote. -/
theorem unquoteBody_appendStringBody (n : Nat) :
    ∀ (s : GoString), s.length ≤ n → ∀ (f1 f2 fv : Nat) (rest : GoString),
      s.length ≤ f1 → validUTF8 fv s = true →
      (appendStringBody f1 s ++ quote :: rest).length ≤ f2 →
      unquoteBody f2 (appendStringBody f1 s ++ quote :: rest) = some (s, rest) := by
  induction n with
  | zero =>
    intro s hs f1 f2 fv rest _ _ hf2
    have : s = [] := List.eq_nil_of_length_eq_zero (Nat.le_zero.mp hs)
    subst this
    rw [appendStringBody_nil] at hf2 ⊢
    cases f2 with
    | zero => simp at hf2
    | succ f => simp [unquoteBody]
  | succ n ih =>
    intro s hs f1 f2 fv rest hf1 hval hf2
    cases s with
    | nil =>
      rw [appendStringBody_nil] at hf2 ⊢
      cases f2 with
      | zero => simp at hf2
      | succ f => simp [unquoteBody]
    | cons b t =>
      cases f1 with
      | zero => simp at hf1
      | succ f1 =>
        cases fv with
        | zero => simp [validUTF8] at hval
        | succ fv =>
          have hw := decodeRune_width b t
          have hvalid : ¬ ((decodeRune (b :: t)).1 = runeError ∧ (decodeRune (b :: t)).2 = 1) ∧
              validUTF8 fv ((b :: t).drop (decodeRune (b :: t)).2) = true := by
            simp only [validUTF8] at hval
            by_cases hc : (decodeRune (b :: t)).1 = runeError ∧ (decodeRune (b :: t)).2 = 1
            · simp [hc] at hval
            · simp only [hc, if_false] at hval
              exact ⟨hc, hval⟩
          have hdroplen : ((b :: t).drop (decodeRune (b :: t)).2).length ≤ n := by
            rw [List.length_drop]
            simp only [List.length_cons] at hs hw ⊢
            omega
          have hdroplen1 : ((b :: t).drop (decodeRune (b :: t)).2).length ≤ f1 := by
            rw [List.length_drop]
            simp only [List.length_cons] at hf1 hw ⊢
            omega
          cases f2 with
          | zero => simp at hf2
          | succ f2 =>
            by_cases hascii : b.val < 0x80
            · have hd : decodeRune (b :: t) = (b.val, 1) := decodeRune_ascii b t hascii
              have hvt : validUTF8 fv t = true := by
                have := hvalid.2
                rw [hd] at this
                simpa using this
              have htn : t.length ≤ n := by simpa using hs
              have htf : t.length ≤ f1 := by simpa using hf1
              by_cases hsafe : htmlSafe b = true
              · have hb := htmlSafe_bounds b hsafe
                have henc : appendStringBody (f1 + 1) (b :: t) = b :: appendStringBody f1 t := by
                  simp only [appendStringBody, hascii, hsafe, if_true]
                rw [henc] at hf2 ⊢
                rw [List.cons_append, unquoteBody_plain f2 b _ hascii hb.1 hb.2.1 hb.2.2,
                  ih t htn f1 f2 fv rest htf hvt (by simpa using hf2)]
                rfl
              · have hsafe' : htmlSafe b = false := by simpa using hsafe
                have henc : appendStringBody (f1 + 1) (b :: t) =
                    escapeByte b ++ appendStringBody f1 t := by
                  simp only [appendStringBody, hascii, hsafe', if_true, if_false,
                    Bool.false_eq_true]
                rw [henc] at hf2 ⊢
                have hl := escapeByte_length_pos b
                rw [List.append_assoc, unquoteBody_escapeByte f2 b _ hascii hsafe',
                  ih t htn f1 f2 fv rest htf hvt (by
                    simp only [List.append_assoc, List.length_append, List.length_cons] at hf2 ⊢
                    omega)]
                rfl
            · have hhigh : 0x80 ≤ b.val := Nat.le_of_not_lt hascii
              have hih := fun f2' h => ih ((b :: t).drop (decodeRune (b :: t)).2) hdroplen f1 f2' fv
                rest hdroplen1 hvalid.2 h
              have htd : (b :: t).take (decodeRune (b :: t)).2 ++
                  (b :: t).drop (decodeRune (b :: t)).2 = b :: t := List.take_append_drop _ _
              by_cases hsep : (decodeRune (b :: t)).1 = 0x2028 ∨ (decodeRune (b :: t)).1 = 0x2029
              · have henc : appendStringBody (f1 + 1) (b :: t) =
                    ascii "\\u202" ++ [hexDigit ((decodeRune (b :: t)).1 % 16)] ++
                      appendStringBody f1 ((b :: t).drop (decodeRune (b :: t)).2) := by
                  simp only [appendStringBody, hascii, hvalid.1, hsep, if_true, if_false]
                rw [henc] at hf2 ⊢
                rw [List.append_assoc, unquoteBody_lineSep f2 _ _ hsep,
                  hih f2 (by
                    simp only [List.append_assoc, List.length_append, List.length_cons,
                      List.length_nil] at hf2 ⊢
                    omega)]
                simp only [Option.map_some', encodeRune_decodeRune b t hvalid.1, htd]
              · have henc : appendStringBody (f1 + 1) (b :: t) =
                    (b :: t).take (decodeRune (b :: t)).2 ++
                      appendStringBody f1 ((b :: t).drop (decodeRune (b :: t)).2) := by
                  simp only [appendStringBody, hascii, hvalid.1, hsep, if_false]
                rw [henc] at hf2 ⊢
                rw [List.append_assoc, unquoteBody_multibyte f2 b t _ hhigh hvalid.1,
                  hih f2 (by
                    simp only [List.append_assoc, List.length_append, List.length_cons,
                      List.length_take] at hf2 ⊢
                    simp only [List.length_cons] at hw
                    omega)]
                simp only [Option.map_some', htd]

/-- Reading back an encoded string: `parseString` on `appendString s` followed
by any text gives `s` and that text, when `s` is valid UTF-8. -/
theorem parseString_appendString (s rest : GoString) (hv : ValidString s = true) :
    parseString (appendString s ++ rest) = some (s, rest) := by
  have h := unquoteBody_appendStringBody s.length s (Nat.le_refl _) s.length
    (appendStringBody s.length s ++ quote :: rest).length s.length rest (Nat.le_refl _) hv
    (Nat.le_refl _)
  simp only [appendString, List.cons_append, List.append_assoc, List.nil_append, parseString,
    if_true]
  exact h

theorem skipSpace_cons (c : Byte) (r : GoString) (h : isSpace c = false) :
    skipSpace (c :: r) = c :: r := by
  simp [skipSpace, h]

theorem appendString_append (s r : GoString) :
    appendString s ++ r = quote :: (appendStringBody s.length s ++ quote :: r) := by
  simp [appendString]

theorem skipSpace_appendString (s r : GoString) :
    skipSpace (appendString s ++ r) = appendString s ++ r := by
  rw [appendString_append]
  exact skipSpace_cons _ _ (by decide)

theorem literal_append (p r : GoString) : literal p (p ++ r) = some r := by
  have h : p.isPrefixOf (p ++ r) = true := by
    rw [List.isPrefixOf_iff_prefix]
    exact List.prefix_append p r
  simp [literal, h]

theorem literal_null_none (c : Byte) (r : GoString) (h : c ≠ byte 110) :
    literal (ascii "null") (c :: r) = none := by
  have e : ascii "null" = [byte 110, byte 117, byte 108, byte 108] := by decide
  have h' : ¬ byte 110 = c := fun x => h x.symm
  simp [literal, e, List.isPrefixOf, h']

theorem marshalBool_head (b : Bool) (r : GoString) :
    ∃ c t, marshalBool b ++ r = c :: t ∧ isSpace c = false ∧ c ≠ byte 110 := by
  cases b
  · exact ⟨byte 102, ascii "alse" ++ r, by
      have : marshalBool false = byte 102 :: ascii "alse" := by decide
      rw [this]; rfl, by decide, by decide⟩
  · exact ⟨byte 116, ascii "rue" ++ r, by
      have : marshalBool true = byte 116 :: ascii "rue" := by decide
      rw [this]; rfl, by decide, by decide⟩

theorem parseBool_marshalBool (b : Bool) (r : GoString) :
    parseBool (marshalBool b ++ r) = some (b, r) := by
  cases b
  · have h1 : literal (ascii "true") (marshalBool false ++ r) = none := by
      have e : ascii "true" = [byte 116, byte 114, byte 117, byte 101] := by decide
      have e2 : marshalBool false = byte 102 :: ascii "alse" := by decide
      have ne : ¬ byte 116 = byte 102 := by decide
      simp [literal, e, e2, List.isPrefixOf, ne]
    have h2 : literal (ascii "false") (marshalBool false ++ r) = some r := literal_append _ _
    simp [parseBool, h1, h2]
  · have h1 : literal (ascii "true") (marshalBool true ++ r) = some r := literal_append _ _
    simp [parseBool, h1]

/-- The member `"file_name":<string>` sets `FileName`. -/
theorem parseMember_fileName (fi : FileInfo) (name r : GoString)
    (hv : ValidString name = true) :
    parseMember fi (appendString (ascii "file_name") ++ byte 58 :: (appendString name ++ r)) =
      some ({ fi with FileName := name }, r) := by
  have hk : ValidString (ascii "file_name") = true := by decide
  have h1 := parseString_appendString (ascii "file_name")
    (byte 58 :: (appendString name ++ r)) hk
  have h2 : skipSpace (byte 58 :: (appendString name ++ r)) =
      byte 58 :: (appendString name ++ r) := skipSpace_cons _ _ (by decide)
  have h3 : literal (ascii "null") (appendString name ++ r) = none := by
    rw [appendString_append]
    exact literal_null_none _ _ (by decide)
  simp only [parseMember, h1, h2, if_true, skipSpace_appendString, h3,
    parseString_appendString name r hv, Option.map_some']

/-- The member `"is_processed":<bool>` sets `IsProcessed`. -/
theorem parseMember_isProcessed (fi : FileInfo) (b : Bool) (r : GoString) :
    parseMember fi (appendString (ascii "is_processed") ++ byte 58 :: (marshalBool b ++ r)) =
      some ({ fi with IsProcessed := b }, r) := by
  have hk : ValidString (ascii "is_processed") = true := by decide
  have h1 := parseString_appendString (ascii "is_processed")
    (byte 58 :: (marshalBool b ++ r)) hk
  have h2 : skipSpace (byte 58 :: (marshalBool b ++ r)) =
      byte 58 :: (marshalBool b ++ r) := skipSpace_cons _ _ (by decide)
  obtain ⟨c, t, hc, hsp, hn⟩ := marshalBool_head b r
  have h3 : skipSpace (marshalBool b ++ r) = marshalBool b ++ r := by
    rw [hc]; exact skipSpace_cons _ _ hsp
  have h4 : literal (ascii "null") (marshalBool b ++ r) = none := by
    rw [hc]; exact literal_null_none _ _ hn
  have k1 : ¬ ascii "is_processed" = ascii "file_name" := by decide
  simp only [parseMember, h1, h2, if_true, h3, h4, k1, if_false, parseBool_marshalBool,
    Option.map_some']

/-- The member `"is_processing":<bool>` sets `IsProcessingRN`. -/
theorem parseMember_isProcessing (fi : FileInfo) (b : Bool) (r : GoString) :
    parseMember fi (appendString (ascii "is_processing") ++ byte 58 :: (marshalBool b ++ r)) =
      some ({ fi with IsProcessingRN := b }, r) := by
  have hk : ValidString (ascii "is_processing") = true := by decide
  have h1 := parseString_appendString (ascii "is_processing")
    (byte 58 :: (marshalBool b ++ r)) hk
  have h2 : skipSpace (byte 58 :: (marshalBool b ++ r)) =
      byte 58 :: (marshalBool b ++ r) := skipSpace_cons _ _ (by decide)
  obtain ⟨c, t, hc, hsp, hn⟩ := marshalBool_head b r
  have h3 : skipSpace (marshalBool b ++ r) = marshalBool b ++ r := by
    rw [hc]; exact skipSpace_cons _ _ hsp
  have h4 : literal (ascii "null") (marshalBool b ++ r) = none := by
    rw [hc]; exact literal_null_none _ _ hn
  have k1 : ¬ ascii "is_processing" = ascii "file_name" := by decide
  have k2 : ¬ ascii "is_processing" = ascii "is_processed" := by decide
  simp only [parseMember, h1, h2, if_true, h3, h4, k1, k2, if_false, parseBool_marshalBool,
    Option.map_some']

/-- The encoding of a `FileInfo`, token by token. -/
theorem marshalFileInfo_eq (fi : FileInfo) (r : GoString) :
    marshalFileInfo fi ++ r =
      byte 123 :: (appendString (ascii "file_name") ++ byte 58 :: (appendString fi.FileName ++
        byte 44 :: (appendString (ascii "is_processed") ++ byte 58 ::
          (marshalBool fi.IsProcessed ++
        byte 44 :: (appendString (ascii "is_processing") ++ byte 58 ::
          (marshalBool fi.IsProcessingRN ++ byte 125 :: r)))))) := by
  have e1 : ascii "\x7b\"file_name\":" =
      byte 123 :: (appendString (ascii "file_name") ++ [byte 58]) := by decide
  have e2 : ascii ",\"is_processed\":" =
      byte 44 :: (appendString (ascii "is_processed") ++ [byte 58]) := by decide
  have e3 : ascii ",\"is_processing\":" =
      byte 44 :: (appendString (ascii "is_processing") ++ [byte 58]) := by decide
  have e4 : ascii "\x7d" = [byte 125] := by decide
  simp only [marshalFileInfo, e1, e2, e3, e4, List.cons_append, List.append_assoc,
    List.nil_append]

/-- Reading back the object of a `FileInfo`. -/
theorem parseFileInfo_marshal (fi : FileInfo) (r : GoString)
    (hv : ValidString fi.FileName = true) :
    parseValue (marshalFileInfo fi ++ r) = some (some fi, r) := by
  rw [marshalFileInfo_eq]
  have hnull : literal (ascii "null") (byte 123 :: (appendString (ascii "file_name") ++
      byte 58 :: (appendString fi.FileName ++
        byte 44 :: (appendString (ascii "is_processed") ++ byte 58 ::
          (marshalBool fi.IsProcessed ++
        byte 44 :: (appendString (ascii "is_processing") ++ byte 58 ::
          (marshalBool fi.IsProcessingRN ++ byte 125 :: r))))))) = none :=
    literal_null_none _ _ (by decide)
  simp only [parseValue, hnull, if_true]
  generalize hbody : appendString (ascii "file_name") ++ byte 58 :: (appendString fi.FileName ++
        byte 44 :: (appendString (ascii "is_processed") ++ byte 58 ::
          (marshalBool fi.IsProcessed ++
        byte 44 :: (appendString (ascii "is_processing") ++ byte 58 ::
          (marshalBool fi.IsProcessingRN ++ byte 125 :: r))))) = body
  have hskip : skipSpace body = body := by
    rw [← hbody]; exact skipSpace_appendString _ _
  have hhead : ∃ t, body = quote :: t := by
    rw [← hbody, appendString_append]; exact ⟨_, rfl⟩
  obtain ⟨t, ht⟩ := hhead
  have hlen : ∃ f, body.length = f + 3 := by
    refine ⟨body.length - 3, ?_⟩
    have : 3 ≤ body.length := by
      rw [← hbody]
      simp only [appendString, List.length_append, List.length_cons]
      omega
    omega
  obtain ⟨f, hf⟩ := hlen
  have nq : ¬ quote = byte 125 := by decide
  have n1 : ¬ byte 44 = byte 125 := by decide
  have n2 : ¬ byte 125 = byte 44 := by decide
  have hparse : parseFileInfo body = some (fi, r) := by
    unfold parseFileInfo
    rw [hskip]
    rw [ht] at hf ⊢
    simp only [nq, if_false, hf]
    rw [← ht, ← hbody]
    simp only [parseMembers, skipSpace_appendString, parseMember_fileName _ _ _ hv,
      skipSpace_cons (byte 44) _ (by decide), if_true, parseMember_isProcessed,
      parseMember_isProcessing, skipSpace_cons (byte 125) _ (by decide), n1, n2, if_false]
  rw [hparse]
  rfl

/-- Reading back the value of a map member. -/
theorem parseValue_marshalValue (v : Option FileInfo) (r : GoString)
    (hv : ∀ fi, v = some fi → ValidString fi.FileName = true) :
    parseValue (marshalValue v ++ r) = some (v, r) := by
  cases v with
  | none =>
    have : literal (ascii "null") (marshalValue none ++ r) = some r := literal_append _ _
    simp [parseValue, this]
  | some fi => exact parseFileInfo_marshal fi r (hv fi rfl)

theorem marshalValue_head (v : Option FileInfo) (r : GoString) :
    ∃ c t, marshalValue v ++ r = c :: t ∧ isSpace c = false := by
  cases v with
  | none =>
    exact ⟨byte 110, ascii "ull" ++ r, by
      have : marshalValue none = byte 110 :: ascii "ull" := by decide
      rw [this]; rfl, by decide⟩
  | some fi =>
    exact ⟨byte 123, _, marshalFileInfo_eq fi r, by decide⟩

theorem marshalEntry_append (e : GoString × Option FileInfo) (r : GoString) :
    marshalEntry e ++ r = appendString e.1 ++ byte 58 :: (marshalValue e.2 ++ r) := by
  have : ascii ":" = [byte 58] := by decide
  simp [marshalEntry, this]

theorem validEntry_key (e : GoString × Option FileInfo) (h : validEntry e = true) :
    ValidString e.1 = true := by
  simp only [validEntry, Bool.and_eq_true] at h
  exact h.1

theorem validEntry_value (e : GoString × Option FileInfo) (h : validEntry e = true) :
    ∀ fi, e.2 = some fi → ValidString fi.FileName = true := by
  intro fi hfi
  simp only [validEntry, Bool.and_eq_true, hfi] at h
  exact h.2

/-- One round of the loop over the members of the top-level object. -/
theorem parseEntries_step (f : Nat) (m : FileInfoMap) (e : GoString × Option FileInfo)
    (c1 : Byte) (r4 : GoString) (hc : isSpace c1 = false) (hv : validEntry e = true) :
    parseEntries (f + 1) m (marshalEntry e ++ c1 :: r4) =
      if c1 = byte 44 then parseEntries f (mapAssign m e.1 e.2) r4
      else if c1 = byte 125 then some (mapAssign m e.1 e.2, r4)
      else none := by
  rw [marshalEntry_append]
  obtain ⟨c, t, hct, hsp⟩ := marshalValue_head e.2 (c1 :: r4)
  have h1 : skipSpace (marshalValue e.2 ++ c1 :: r4) = marshalValue e.2 ++ c1 :: r4 := by
    rw [hct]; exact skipSpace_cons _ _ hsp
  simp only [parseEntries, skipSpace_appendString,
    parseString_appendString e.1 _ (validEntry_key e hv),
    skipSpace_cons (byte 58) _ (by decide), if_true, h1,
    parseValue_marshalValue e.2 _ (validEntry_value e hv), skipSpace_cons c1 _ hc]

/-- Reading back the members of the top-level object: each entry is assigned
to the map in the order written. -/
theorem parseEntries_marshalEntries (l : List (GoString × Option FileInfo)) :
    ∀ (e : GoString × Option FileInfo) (f : Nat) (m : FileInfoMap) (rest : GoString),
      l.length + 1 ≤ f → (∀ x ∈ e :: l, validEntry x = true) →
      parseEntries f m (marshalEntries (e :: l) ++ byte 125 :: rest) =
        some ((e :: l).foldl (fun acc x => mapAssign acc x.1 x.2) m, rest) := by
  induction l with
  | nil =>
    intro e f m rest hf hv
    obtain ⟨f', rfl⟩ : ∃ f', f = f' + 1 := ⟨f - 1, by simp at hf; omega⟩
    have n1 : ¬ byte 125 = byte 44 := by decide
    simp only [marshalEntries]
    rw [parseEntries_step f' m e (byte 125) rest (by decide) (hv e (by simp))]
    simp [n1]
  | cons e2 es ih =>
    intro e f m rest hf hv
    obtain ⟨f', rfl⟩ : ∃ f', f = f' + 1 := ⟨f - 1, by simp at hf; omega⟩
    have hcomma : ascii "," = [byte 44] := by decide
    have hm : marshalEntries (e :: e2 :: es) ++ byte 125 :: rest =
        marshalEntry e ++ byte 44 :: (marshalEntries (e2 :: es) ++ byte 125 :: rest) := by
      simp [marshalEntries, hcomma]
    rw [hm, parseEntries_step f' m e (byte 44) _ (by decide) (hv e (by simp))]
    simp only [if_true]
    rw [ih e2 f' (mapAssign m e.1 e.2) rest (by simp at hf ⊢; omega)
      (fun x hx => hv x (List.mem_cons_of_mem _ hx))]
    rfl

theorem appendString_length (s : GoString) : 2 ≤ (appendString s).length := by
  simp [appendString]

theorem marshalEntries_length (l : List (GoString × Option FileInfo)) :
    l.length ≤ (marshalEntries l).length := by
  induction l with
  | nil => simp [marshalEntries]
  | cons e es ih =>
    cases es with
    | nil =>
      have := appendString_length e.1
      simp only [marshalEntries, marshalEntry, List.length_append, List.length_cons,
        List.length_nil]
      omega
    | cons e2 es =>
      have := appendString_length e.1
      simp only [marshalEntries, marshalEntry, List.length_append, List.length_cons] at ih ⊢
      omega

theorem marshalEntries_head (e : GoString × Option FileInfo)
    (l : List (GoString × Option FileInfo)) (r : GoString) :
    ∃ t, marshalEntries (e :: l) ++ r = quote :: t := by
  cases l with
  | nil =>
    simp only [marshalEntries, marshalEntry, List.append_assoc]
    rw [appendString_append]
    exact ⟨_, rfl⟩
  | cons e2 es =>
    simp only [marshalEntries, marshalEntry, List.append_assoc]
    rw [appendString_append]
    exact ⟨_, rfl⟩

/-- Reading back an encoded map into a map `m`: the entries are assigned to `m`
in the order of their keys. -/
theorem Unmarshal_Marshal (fm m : FileInfoMap) (hv : validNames fm = true) :
    Unmarshal (Marshal fm) m =
      some ((sortedEntries fm).foldl (fun acc x => mapAssign acc x.1 x.2) m) := by
  have hperm : (sortedEntries fm).Perm fm := List.perm_insertionSort _ fm
  have hvalid : ∀ x ∈ sortedEntries fm, validEntry x = true := by
    intro x hx
    have hx' : x ∈ fm := hperm.subset hx
    simp only [validNames, List.all_eq_true] at hv
    exact hv x hx'
  have hl : ascii "\x7b" = [byte 123] := by decide
  have hr : ascii "\x7d" = [byte 125] := by decide
  have hM : Marshal fm = byte 123 :: (marshalEntries (sortedEntries fm) ++ [byte 125]) := by
    simp [Marshal, hl, hr]
  have hlen : (sortedEntries fm).length + 1 ≤ (Marshal fm).length := by
    have := marshalEntries_length (sortedEntries fm)
    rw [hM]
    simp only [List.length_cons, List.length_append, List.length_nil]
    omega
  generalize sortedEntries fm = l at hvalid hM hlen
  have hskip : skipSpace (Marshal fm) = Marshal fm := by
    rw [hM]; exact skipSpace_cons _ _ (by decide)
  cases l with
  | nil =>
    have h125 : skipSpace [byte 125] = [byte 125] := by decide
    have hnil : skipSpace ([] : GoString) = [] := rfl
    simp only [Unmarshal, hskip]
    rw [hM]
    simp only [marshalEntries, List.nil_append, if_true, h125, hnil, List.foldl_nil]
  | cons e es =>
    obtain ⟨t, ht⟩ := marshalEntries_head e es [byte 125]
    have hsk2 : skipSpace (marshalEntries (e :: es) ++ [byte 125]) = quote :: t := by
      rw [ht]; exact skipSpace_cons _ _ (by decide)
    have nq : ¬ quote = byte 125 := by decide
    have hp := parseEntries_marshalEntries es e (Marshal fm).length m []
      (by simp only [List.length_cons] at hlen; omega) hvalid
    simp only [Unmarshal, hskip]
    rw [hM] at hp ⊢
    simp only [if_true, hsk2, nq, if_false, hp, skipSpace]

theorem mapLookup_eq_none_iff (m : FileInfoMap) (k : GoString) :
    mapLookup m k = none ↔ k ∉ m.map Prod.fst := by
  induction m with
  | nil => simp [mapLookup]
  | cons e rest ih =>
    obtain ⟨k', v⟩ := e
    by_cases h : k' = k
    · simp [mapLookup, h]
    · have h' : ¬ k = k' := fun x => h x.symm
      simp [mapLookup, h, h', ih]

theorem mapAssign_of_absent (m : FileInfoMap) (k : GoString) (v : Option FileInfo)
    (h : k ∉ m.map Prod.fst) : mapAssign m k v = m ++ [(k, v)] := by
  induction m with
  | nil => simp [mapAssign]
  | cons e rest ih =>
    obtain ⟨k', x⟩ := e
    have hk : ¬ k' = k := by
      intro e
      apply h
      simp [e]
    have hr : k ∉ rest.map Prod.fst := by
      intro e
      apply h
      simp only [List.map_cons, List.mem_cons]
      exact Or.inr e
    simp [mapAssign, hk, ih hr]

/-- Assigning entries with distinct new keys one by one appends them. -/
theorem foldl_mapAssign_of_nodup (l : List (GoString × Option FileInfo)) :
    ∀ (m : FileInfoMap), (l.map Prod.fst).Nodup →
      (∀ k ∈ l.map Prod.fst, k ∉ m.map Prod.fst) →
      l.foldl (fun acc x => mapAssign acc x.1 x.2) m = m ++ l := by
  induction l with
  | nil => intro m _ _; simp
  | cons e rest ih =>
    intro m hnd hdis
    have hnd' : e.1 ∉ rest.map Prod.fst ∧ (rest.map Prod.fst).Nodup := by
      rw [List.map_cons] at hnd
      exact List.nodup_cons.mp hnd
    have he : e.1 ∉ m.map Prod.fst := hdis e.1 (by simp)
    simp only [List.foldl_cons]
    rw [mapAssign_of_absent m e.1 e.2 he, ih (m ++ [(e.1, e.2)]) hnd'.2]
    · simp
    · intro k hk
      simp only [List.map_append, List.map_cons, List.map_nil, List.mem_append,
        List.mem_singleton, not_or]
      refine ⟨hdis k (by simp only [List.map_cons, List.mem_cons]; exact Or.inr hk), ?_⟩
      intro hke
      apply hnd'.1
      rw [← hke]
      exact hk

theorem mapLookup_eq_some_iff (m : FileInfoMap) (k : GoString) (v : Option FileInfo)
    (hnd : (m.map Prod.fst).Nodup) : mapLookup m k = some v ↔ (k, v) ∈ m := by
  induction m with
  | nil => simp [mapLookup]
  | cons e rest ih =>
    obtain ⟨k', x⟩ := e
    have hnd' : k' ∉ rest.map Prod.fst ∧ (rest.map Prod.fst).Nodup := by
      rw [List.map_cons] at hnd
      exact List.nodup_cons.mp hnd
    by_cases h : k' = k
    · subst h
      simp only [mapLookup, if_true, Option.some.injEq, List.mem_cons, Prod.mk.injEq, true_and]
      constructor
      · intro hx; exact Or.inl hx.symm
      · intro hx
        rcases hx with hx | hx
        · exact hx.symm
        · exfalso
          apply hnd'.1
          exact List.mem_map_of_mem Prod.fst hx
    · have h' : ¬ k = k' := fun x => h x.symm
      simp [mapLookup, h, h', ih hnd'.2]

/-- Two registries with unique keys and the same entries in any order are
equal as maps. -/
theorem mapLookup_perm (m1 m2 : FileInfoMap) (hp : m1.Perm m2)
    (hnd : (m1.map Prod.fst).Nodup) (k : GoString) : mapLookup m1 k = mapLookup m2 k := by
  have hnd2 : (m2.map Prod.fst).Nodup := (hp.map Prod.fst).nodup_iff.mp hnd
  cases h : mapLookup m1 k with
  | none =>
    have h1 := (mapLookup_eq_none_iff m1 k).mp h
    have h2 : k ∉ m2.map Prod.fst := fun hx => h1 ((hp.map Prod.fst).mem_iff.mpr hx)
    exact ((mapLookup_eq_none_iff m2 k).mpr h2).symm
  | some v =>
    have h1 := (mapLookup_eq_some_iff m1 k v hnd).mp h
    have h2 : (k, v) ∈ m2 := hp.mem_iff.mp h1
    exact ((mapLookup_eq_some_iff m2 k v hnd2).mpr h2).symm

/-! ## Theorems -/

set_option maxRecDepth 100000

/-- C1: the ensure step of the upload handler adds the record
`(fileName, false, false)` for a `fileId` that has none and touches no other
key; it leaves the registry exactly as it was when `fileId` already has an
entry; and `n ≥ 1` successive calls with the same arguments give the registry
of one call. -/
theorem ensure_creates_or_keeps (fm : FileInfoMap) (fileId fileName : GoString) :
    (mapLookup fm fileId = none →
      mapLookup (ensure fm fileId fileName) fileId =
          some (some { FileName := fileName, IsProcessed := false, IsProcessingRN := false }) ∧
        ∀ k, k ≠ fileId → mapLookup (ensure fm fileId fileName) k = mapLookup fm k) ∧
    (mapLookup fm fileId ≠ none → ensure fm fileId fileName = fm) ∧
    ∀ n, 1 ≤ n → (fun m => ensure m fileId fileName)^[n] fm = ensure fm fileId fileName := by
  refine ⟨fun h => ⟨?_, fun k hk => ?_⟩, ensure_of_present fm fileId fileName, ?_⟩
  · rw [ensure_of_absent fm fileId fileName h, WriteFileInfo, mapLookup_mapAssign_same]
  · rw [ensure_of_absent fm fileId fileName h, WriteFileInfo, mapLookup_mapAssign_other _ _ _ _ hk]
  · intro n hn
    induction n with
    | zero => omega
    | succ n ih =>
      rcases Nat.eq_zero_or_pos n with h0 | hpos
      · subst h0; rfl
      · rw [Function.iterate_succ_apply', ih hpos, ensure_ensure]

/-- Witness of C1 at the empty registry, `fileId = "abc"`, `fileName = "clip.mp4"`. -/
theorem ensure_creates_or_keeps_witness :
    mapLookup ([] : FileInfoMap) (ascii "abc") = none ∧
    mapLookup (ensure [] (ascii "abc") (ascii "clip.mp4")) (ascii "abc") =
      some (some { FileName := ascii "clip.mp4", IsProcessed := false, IsProcessingRN := false }) ∧
    (fun m => ensure m (ascii "abc") (ascii "clip.mp4"))^[3] [] =
      ensure [] (ascii "abc") (ascii "clip.mp4") :=
  ⟨rfl, ((ensure_creates_or_keeps [] (ascii "abc") (ascii "clip.mp4")).1 rfl).1,
    (ensure_creates_or_keeps [] (ascii "abc") (ascii "clip.mp4")).2.2 3 (by decide)⟩

/-- C2: on a registry that holds a record for `fileId` with `isProcessing = false`,
for every behaviour `run` of the encoder invocations, the handler of
/process-video does not panic, sets `isProcessing = true` on that record,
starts the job and answers 200; the job body then finishes and leaves the
record with `isProcessing = false` and `isProcessed = true` (and the same
`fileName`). -/
theorem processVideo_job_lifecycle (run : GoString → Bool) (fm : FileInfoMap)
    (fileId : GoString) (fi : FileInfo)
    (hrec : mapLookup fm fileId = some (some fi)) (hidle : fi.IsProcessingRN = false) :
    statusPair fm fileId = some (false, fi.IsProcessed) ∧
    (processVideo fm fileId).fault = none ∧
    (processVideo fm fileId).spawned = true ∧
    (processVideo fm fileId).response =
      some { status := 200, body := ascii "Started processing" } ∧
    mapLookup (processVideo fm fileId).fm fileId =
      some (some { FileName := fi.FileName, IsProcessed := fi.IsProcessed,
                   IsProcessingRN := true }) ∧
    (processVideoJob run (processVideo fm fileId).fm fileId).outcome = JobOutcome.finished ∧
    mapLookup (processVideoJob run (processVideo fm fileId).fm fileId).fm fileId =
      some (some { FileName := fi.FileName, IsProcessed := true, IsProcessingRN := false }) := by
  have hp := processVideo_of_record fm fileId fi hrec
  have hl : mapLookup (processVideo fm fileId).fm fileId =
      some (some { fi with IsProcessingRN := true }) := by
    rw [hp]
    exact mapLookup_mapAssign_same _ _ _
  obtain ⟨ho, _, hf⟩ := processVideoJob_of_record run (processVideo fm fileId).fm fileId _ hl
  refine ⟨?_, ?_, ?_, ?_, hl, ho, ?_⟩
  · rw [statusPair_of_lookup fm fileId fi hrec, hidle]
  · rw [hp]
  · rw [hp]
  · rw [hp]
  · rw [hf]
    exact mapLookup_mapAssign_same _ _ _

/-- Witness of C2: the record `abc ↦ (clip.mp4, false, false)` and an encoder
that always fails. -/
theorem processVideo_job_lifecycle_witness :
    mapLookup
        (processVideoJob (fun _ => false)
          (processVideo
            [(ascii "abc", some { FileName := ascii "clip.mp4", IsProcessed := false,
                                  IsProcessingRN := false })]
            (ascii "abc")).fm (ascii "abc")).fm (ascii "abc") =
      some (some { FileName := ascii "clip.mp4", IsProcessed := true, IsProcessingRN := false }) :=
  (processVideo_job_lifecycle (fun _ => false)
    [(ascii "abc", some { FileName := ascii "clip.mp4", IsProcessed := false,
                          IsProcessingRN := false })]
    (ascii "abc")
    { FileName := ascii "clip.mp4", IsProcessed := false, IsProcessingRN := false }
    (by decide) rfl).2.2.2.2.2.2

/-- C3 (the code at the failing input): on the empty registry a /process-video
request for `ghost` panics in `ChangeVideoIsProcessedStatusTrue` with a nil
pointer dereference; the handler writes no response and starts no job. -/
theorem processVideo_unknown_fileId_panics :
    processVideo [] (ascii "ghost") =
      { fm := [], fault := some Fault.nilPointerDereference, response := none,
        spawned := false } := by
  decide

/-- C4: for a `fileId` without an entry, `ChangeVideoIsProcessedStatusTrue`
panics and leaves the registry as it was: no entry for `fileId` afterwards and
every other entry unchanged. -/
theorem markProcessingStart_absent_faults (fm : FileInfoMap) (fileId : GoString)
    (habsent : mapLookup fm fileId = none) :
    (ChangeVideoIsProcessedStatusTrue fm fileId).2 = some Fault.nilPointerDereference ∧
    mapLookup (ChangeVideoIsProcessedStatusTrue fm fileId).1 fileId = none ∧
    (ChangeVideoIsProcessedStatusTrue fm fileId).1 = fm := by
  have h : ChangeVideoIsProcessedStatusTrue fm fileId =
      (fm, some Fault.nilPointerDereference) := by
    simp [ChangeVideoIsProcessedStatusTrue, mapIndex_of_absent fm fileId habsent]
  rw [h]
  exact ⟨rfl, habsent, rfl⟩

/-- Witness of C4: the registry `k1 ↦ (v.mp4, true, false)` and the absent
`fileId = "ghost"`. -/
theorem markProcessingStart_absent_faults_witness :
    ChangeVideoIsProcessedStatusTrue
        [(ascii "k1", some { FileName := ascii "v.mp4", IsProcessed := true,
                             IsProcessingRN := false })]
        (ascii "ghost") =
      ([(ascii "k1", some { FileName := ascii "v.mp4", IsProcessed := true,
                            IsProcessingRN := false })],
        some Fault.nilPointerDereference) :=
  Prod.ext
    (markProcessingStart_absent_faults
      [(ascii "k1", some { FileName := ascii "v.mp4", IsProcessed := true,
                           IsProcessingRN := false })]
      (ascii "ghost") (by decide)).2.2
    (markProcessingStart_absent_faults
      [(ascii "k1", some { FileName := ascii "v.mp4", IsProcessed := true,
                           IsProcessingRN := false })]
      (ascii "ghost") (by decide)).1

/-- C5 (the code at the failing input): two upload handlers for `abc` both
miss in the unlocked lookup; one writes the record, a job on `abc` runs to its
end and the record is `(clip.mp4, true, false)`; then the other handler's
`WriteFileInfo` replaces it with `(clip.mp4, false, false)`: `isProcessed` goes
from true to false. -/
theorem stale_upload_write_resets_isProcessed :
    (runOps { fm := [], pendingWrites := [] }
        [Op.uploadLookup (ascii "abc") (ascii "clip.mp4"),
          Op.uploadLookup (ascii "abc") (ascii "clip.mp4"),
          Op.uploadWrite (ascii "abc") (ascii "clip.mp4"),
          Op.markProcessingStart (ascii "abc"),
          Op.markProcessingEnd (ascii "abc"),
          Op.markProcessed (ascii "abc")]).map (fun s => mapLookup s.fm (ascii "abc")) =
      some (some (some { FileName := ascii "clip.mp4", IsProcessed := true,
                         IsProcessingRN := false })) ∧
    (runOps { fm := [], pendingWrites := [] }
        [Op.uploadLookup (ascii "abc") (ascii "clip.mp4"),
          Op.uploadLookup (ascii "abc") (ascii "clip.mp4"),
          Op.uploadWrite (ascii "abc") (ascii "clip.mp4"),
          Op.markProcessingStart (ascii "abc"),
          Op.markProcessingEnd (ascii "abc"),
          Op.markProcessed (ascii "abc"),
          Op.uploadWrite (ascii "abc") (ascii "clip.mp4")]).map
        (fun s => mapLookup s.fm (ascii "abc")) =
      some (some (some { FileName := ascii "clip.mp4", IsProcessed := false,
                         IsProcessingRN := false })) := by
  decide

/-- C6 (the code at the failing input): two first uploads of `abc`, one as
`clip.mp4` and one as `other.mp4`, both miss in the unlocked lookup; after the
first handler's `WriteFileInfo` the record's `fileName` is `clip.mp4`, after the
second handler's it is `other.mp4`. -/
theorem concurrent_first_uploads_replace_fileName :
    (runOps { fm := [], pendingWrites := [] }
        [Op.uploadLookup (ascii "abc") (ascii "clip.mp4"),
          Op.uploadLookup (ascii "abc") (ascii "other.mp4"),
          Op.uploadWrite (ascii "abc") (ascii "clip.mp4")]).map
        (fun s => mapLookup s.fm (ascii "abc")) =
      some (some (some { FileName := ascii "clip.mp4", IsProcessed := false,
                         IsProcessingRN := false })) ∧
    (runOps { fm := [], pendingWrites := [] }
        [Op.uploadLookup (ascii "abc") (ascii "clip.mp4"),
          Op.uploadLookup (ascii "abc") (ascii "other.mp4"),
          Op.uploadWrite (ascii "abc") (ascii "clip.mp4"),
          Op.uploadWrite (ascii "abc") (ascii "other.mp4")]).map
        (fun s => mapLookup s.fm (ascii "abc")) =
      some (some (some { FileName := ascii "other.mp4", IsProcessed := false,
                         IsProcessingRN := false })) := by
  decide

/-- C7 (counterexample): from the registry `abc ↦ (clip.mp4, false, false)`
with no job in flight, two /process-video requests for `abc` are both
accepted: at the second one `isProcessing` is already true, and afterwards two
jobs are in flight for `abc`. -/
theorem second_request_starts_second_job :
    statusPair
        (processVideo
          [(ascii "abc", some { FileName := ascii "clip.mp4", IsProcessed := false,
                                IsProcessingRN := false })]
          (ascii "abc")).fm (ascii "abc") = some (true, false) ∧
    (runEvents (fun _ => true)
        { fm := [(ascii "abc", some { FileName := ascii "clip.mp4", IsProcessed := false,
                                      IsProcessingRN := false })],
          jobs := [] }
        [Event.request (ascii "abc"), Event.request (ascii "abc")]).map
      (fun s => jobsInFlight s (ascii "abc")) = some 2 := by
  decide

/-- C7 (amended): there is no guard. From any state in which `fileId` has a
record, `k` successive /process-video requests for `fileId` are all accepted
and each starts one more job, whatever `isProcessing` is: `k` more jobs are in
flight for `fileId` afterwards, and `isProcessing` is true once `k ≥ 1`. -/
theorem request_always_starts_job (run : GoString → Bool) (s : System) (fileId : GoString)
    (fi : FileInfo) (hrec : mapLookup s.fm fileId = some (some fi)) (k : Nat) :
    ∃ s', runEvents run s (List.replicate k (Event.request fileId)) = some s' ∧
      jobsInFlight s' fileId = jobsInFlight s fileId + k ∧
      (0 < k → statusPair s'.fm fileId = some (true, fi.IsProcessed)) := by
  induction k generalizing s fi with
  | zero => exact ⟨s, rfl, rfl, fun h => absurd h (by decide)⟩
  | succ k ih =>
    have hp := processVideo_of_record s.fm fileId fi hrec
    have hstep : step run s (Event.request fileId) =
        some { fm := mapAssign s.fm fileId (some { fi with IsProcessingRN := true }),
               jobs := fileId :: s.jobs } := by
      simp [step, hp]
    have hl : mapLookup
        (mapAssign s.fm fileId (some { fi with IsProcessingRN := true })) fileId =
        some (some { fi with IsProcessingRN := true }) := mapLookup_mapAssign_same _ _ _
    obtain ⟨s', hr, hj, hs⟩ :=
      ih { fm := mapAssign s.fm fileId (some { fi with IsProcessingRN := true }),
           jobs := fileId :: s.jobs } { fi with IsProcessingRN := true } hl
    refine ⟨s', ?_, ?_, fun _ => ?_⟩
    · simp only [List.replicate_succ, runEvents, hstep]
      exact hr
    · rw [hj]
      simp only [jobsInFlight, List.count_cons_self]
      omega
    · rcases Nat.eq_zero_or_pos k with h0 | hpos
      · subst h0
        simp only [List.replicate_zero, runEvents, Option.some.injEq] at hr
        subst hr
        simpa using statusPair_of_lookup _ fileId _ hl
      · exact hs hpos

/-- Witness of C7 (amended): two requests on a record that is already being
processed. -/
theorem request_always_starts_job_witness :
    ∃ s', runEvents (fun _ => true)
        { fm := [(ascii "abc", some { FileName := ascii "clip.mp4", IsProcessed := false,
                                      IsProcessingRN := true })],
          jobs := [ascii "abc"] }
        (List.replicate 2 (Event.request (ascii "abc"))) = some s' ∧
      jobsInFlight s' (ascii "abc") =
        jobsInFlight
          { fm := [(ascii "abc", some { FileName := ascii "clip.mp4", IsProcessed := false,
                                        IsProcessingRN := true })],
            jobs := [ascii "abc"] } (ascii "abc") + 2 ∧
      (0 < 2 → statusPair s'.fm (ascii "abc") = some (true, false)) :=
  request_always_starts_job (fun _ => true)
    { fm := [(ascii "abc", some { FileName := ascii "clip.mp4", IsProcessed := false,
                                  IsProcessingRN := true })],
      jobs := [ascii "abc"] }
    (ascii "abc")
    { FileName := ascii "clip.mp4", IsProcessed := false, IsProcessingRN := true }
    (by decide) 2

/-- C8 (counterexample): for `fileId = "abc"`, `fileName = "a/b.mp4"` and the
label `144p` the output path is `./static/videostore/144p_b.mp4`, not
`./static/videostore/144p_abc_a/b.mp4`. -/
theorem output_path_drops_directories :
    convertVideoOutputPath (uploadPath (ascii "abc") (ascii "a/b.mp4")) (ascii "144p") =
      ascii "./static/videostore/144p_b.mp4" ∧
    convertVideoOutputPath (uploadPath (ascii "abc") (ascii "a/b.mp4")) (ascii "144p") ≠
      ascii "./static/videostore/" ++ ascii "144p" ++ ascii "_" ++ ascii "abc" ++ ascii "_" ++
        ascii "a/b.mp4" := by
  decide

/-- C8 (amended): when neither `fileId` nor `fileName` contains the byte `/`,
the output path that `convertVideo` builds for the input path
`./upload/{fileId}_{fileName}` is `./static/videostore/{label}_{fileId}_{fileName}`,
for every label. -/
theorem output_path_of_plain_names (fileId fileName label : GoString)
    (hid : slash ∉ fileId) (hname : slash ∉ fileName) :
    convertVideoOutputPath (uploadPath fileId fileName) label =
      ascii "./static/videostore/" ++ label ++ ascii "_" ++ fileId ++ ascii "_" ++ fileName := by
  have hu : uploadPath fileId fileName =
      ascii "./upload" ++ slash :: (fileId ++ ascii "_" ++ fileName) := by
    have : ascii "./upload/" = ascii "./upload" ++ [slash] := by decide
    simp [uploadPath, this]
  have hunder : slash ∉ ascii "_" := by decide
  have hrest : slash ∉ fileId ++ ascii "_" ++ fileName := by
    simp only [List.mem_append, not_or]
    exact ⟨⟨hid, hunder⟩, hname⟩
  have hsplit : (stringsSplit slash (uploadPath fileId fileName)).getLastD [] =
      fileId ++ ascii "_" ++ fileName := by
    rw [hu, stringsSplit_append_sep, stringsSplit_of_not_mem slash _ hrest,
      getLastD_append_of_ne_nil _ _ _ (by simp)]
    rfl
  simp only [convertVideoOutputPath, hsplit, List.append_assoc]

/-- Witness of C8 (amended): `fileId = "abc"`, `fileName = "clip.mp4"`, label
`144p`. -/
theorem output_path_of_plain_names_witness :
    convertVideoOutputPath (uploadPath (ascii "abc") (ascii "clip.mp4")) (ascii "144p") =
      ascii "./static/videostore/" ++ ascii "144p" ++ ascii "_" ++ ascii "abc" ++ ascii "_" ++
        ascii "clip.mp4" :=
  output_path_of_plain_names (ascii "abc") (ascii "clip.mp4") (ascii "144p")
    (by decide) (by decide)

/-- C9 (counterexample): the registry `a ↦ (fileName, false, false)` whose
`fileName` is the single byte 0xFF is written as
`{"a":{"file_name":"\ufffd","is_processed":false,"is_processing":false}}` and
loaded back with the `fileName` EF BF BD (U+FFFD): the loaded registry differs
from the original at `a`. -/
theorem invalid_utf8_name_not_restored :
    PersistMap [(ascii "a", some { FileName := [byte 0xFF], IsProcessed := false,
                                   IsProcessingRN := false })] =
      ascii ("\x7b\"a\":\x7b\"file_name\":\"\\ufffd\",\"is_processed\":false," ++
        "\"is_processing\":false\x7d\x7d") ∧
    loadSnapshot
        (PersistMap [(ascii "a", some { FileName := [byte 0xFF], IsProcessed := false,
                                        IsProcessingRN := false })]) =
      some [(ascii "a", some { FileName := [byte 0xEF, byte 0xBF, byte 0xBD],
                               IsProcessed := false, IsProcessingRN := false })] ∧
    mapLookup [(ascii "a", some { FileName := [byte 0xEF, byte 0xBF, byte 0xBD],
                                  IsProcessed := false, IsProcessingRN := false })] (ascii "a") ≠
      mapLookup [(ascii "a", some { FileName := [byte 0xFF], IsProcessed := false,
                                    IsProcessingRN := false })] (ascii "a") := by
  decide

/-- C9 (amended): for every registry with one entry per key whose fileIds and
fileNames are valid UTF-8, the registry that `main` loads from the bytes that
`PersistMap` writes is defined and equal, as a map, to the original. -/
theorem snapshot_round_trip (fm : FileInfoMap) (hkeys : uniqueKeys fm)
    (hvalid : validNames fm = true) :
    ∃ fm', loadSnapshot (PersistMap fm) = some fm' ∧ uniqueKeys fm' ∧
      ∀ k, mapLookup fm' k = mapLookup fm k := by
  have hperm : (sortedEntries fm).Perm fm := List.perm_insertionSort _ fm
  have hnd : ((sortedEntries fm).map Prod.fst).Nodup :=
    (hperm.map Prod.fst).nodup_iff.mpr hkeys
  have hfold := foldl_mapAssign_of_nodup (sortedEntries fm) [] hnd (by simp)
  refine ⟨sortedEntries fm, ?_, hnd, fun k => mapLookup_perm _ _ hperm hnd k⟩
  rw [loadSnapshot, PersistMap, Unmarshal_Marshal fm [] hvalid, hfold]
  rfl

/-- Witness of C9 (amended): the registry
`k2 ↦ (w.mp4, false, false), k1 ↦ (v.mp4, true, false)`, with the bytes that
`PersistMap` writes for it. -/
theorem snapshot_round_trip_witness :
    PersistMap
        [(ascii "k2", some { FileName := ascii "w.mp4", IsProcessed := false,
                             IsProcessingRN := false }),
          (ascii "k1", some { FileName := ascii "v.mp4", IsProcessed := true,
                              IsProcessingRN := false })] =
      ascii ("\x7b\"k1\":\x7b\"file_name\":\"v.mp4\",\"is_processed\":true," ++
        "\"is_processing\":false\x7d,\"k2\":\x7b\"file_name\":\"w.mp4\"," ++
        "\"is_processed\":false,\"is_processing\":false\x7d\x7d") ∧
    ∃ fm', loadSnapshot
        (PersistMap
          [(ascii "k2", some { FileName := ascii "w.mp4", IsProcessed := false,
                               IsProcessingRN := false }),
            (ascii "k1", some { FileName := ascii "v.mp4", IsProcessed := true,
                                IsProcessingRN := false })]) = some fm' ∧
      uniqueKeys fm' ∧
      ∀ k, mapLookup fm' k =
        mapLookup
          [(ascii "k2", some { FileName := ascii "w.mp4", IsProcessed := false,
                               IsProcessingRN := false }),
            (ascii "k1", some { FileName := ascii "v.mp4", IsProcessed := true,
                                IsProcessingRN := false })] k :=
  ⟨by decide,
    snapshot_round_trip
      [(ascii "k2", some { FileName := ascii "w.mp4", IsProcessed := false,
                           IsProcessingRN := false }),
        (ascii "k1", some { FileName := ascii "v.mp4", IsProcessed := true,
                            IsProcessingRN := false })]
      (by decide) (by decide)⟩

/-- C10 (counterexample): for one job on the fresh record
`abc ↦ (clip.mp4, false, false)` the pairs `(isProcessing, isProcessed)` after
the registry writes are `(true,false)`, `(false,false)`, `(false,true)`: the
pair `(false,false)` is observable after Running has been entered. -/
theorem fresh_pair_observable_after_running :
    jobStatusTrace (fun _ => true)
        [(ascii "abc", some { FileName := ascii "clip.mp4", IsProcessed := false,
                              IsProcessingRN := false })]
        (ascii "abc") =
      [some (true, false), some (false, false), some (false, true)] := by
  decide

/-- C10 (amended): for one job on a record whose `isProcessed` is `p`, the
pairs `(isProcessing, isProcessed)` after the registry writes of the job are
`(true, p)`, `(false, p)`, `(false, true)`, whatever the encoders do: a Fresh
record goes Running, back to `(false,false)`, then Done; a Done record goes
Redo, Done, Done. -/
theorem job_status_trace (run : GoString → Bool) (fm : FileInfoMap) (fileId : GoString)
    (fi : FileInfo) (hrec : mapLookup fm fileId = some (some fi)) :
    jobStatusTrace run fm fileId =
      [some (true, fi.IsProcessed), some (false, fi.IsProcessed), some (false, true)] := by
  have hp := processVideo_of_record fm fileId fi hrec
  have hl : mapLookup (processVideo fm fileId).fm fileId =
      some (some { fi with IsProcessingRN := true }) := by
    rw [hp]
    exact mapLookup_mapAssign_same _ _ _
  obtain ⟨_, hobs, _⟩ := processVideoJob_of_record run (processVideo fm fileId).fm fileId _ hl
  have hs : (processVideo fm fileId).spawned = true := by rw [hp]
  simp only [jobStatusTrace, hs, if_true, hobs, List.map_cons, List.map_nil]
  rw [statusPair_of_lookup _ fileId _ hl,
    statusPair_of_lookup _ fileId _ (mapLookup_mapAssign_same _ _ _),
    statusPair_of_lookup _ fileId _ (mapLookup_mapAssign_same _ _ _)]

/-- Witness of C10 (amended): a second job on the processed record
`k1 ↦ (v.mp4, true, false)`. -/
theorem job_status_trace_witness :
    jobStatusTrace (fun _ => false)
        [(ascii "k1", some { FileName := ascii "v.mp4", IsProcessed := true,
                             IsProcessingRN := false })]
        (ascii "k1") =
      [some (true, true), some (false, true), some (false, true)] :=
  job_status_trace (fun _ => false)
    [(ascii "k1", some { FileName := ascii "v.mp4", IsProcessed := true,
                         IsProcessingRN := false })]
    (ascii "k1")
    { FileName := ascii "v.mp4", IsProcessed := true, IsProcessingRN := false }
    (by decide)


end VideoPipeline
